import Mathlib

/-!
Verification of the dusted-go/security repository: a shallow embedding of the
token generator/validator (package token), the PKCS7 padding (package pkcs7),
the AES-CBC wrapper (package aes), the HMAC signing helpers (package sig), the
constant-time comparison (package compare) and the password hashing scheme
(package pwd), together with theorems settling the specified properties.

Go byte slices are modelled as lists of naturals (each below 256 where it
matters), Go strings as their byte lists, and Go time instants as naturals
counting seconds.  External collaborators (the AES block cipher, HMAC-SHA256,
PBKDF2 and the RFC-3339 time codec of the Go standard library) are parameters
of the embedded functions, constrained only by their documented contracts.
-/

/-- Byte strings: Go byte slices and Go strings, as lists of naturals. -/
abbrev Bytes := List Nat

/-- The bytes of an ASCII string literal. -/
def strBytes (s : String) : Bytes := s.data.map Char.toNat

/-- The byte of the dot character, the separator used by the wire formats. -/
def dot : Nat := 46

/-- Outcome of a Go function call: a runtime panic, a returned error value
(carrying the error message), or a successful result. -/
inductive GoRes (α : Type) where
  | panic : GoRes α
  | err : String → GoRes α
  | ok : α → GoRes α
deriving DecidableEq, Repr

/-- Splits a byte string at the first occurrence of a separator byte, the model
of the first cut made by the Go function strings.SplitN. -/
def splitOnFirst (sep : Nat) : Bytes → Option (Bytes × Bytes)
  | [] => none
  | c :: rest =>
    if c = sep then some ([], rest)
    else (splitOnFirst sep rest).map (fun p => (c :: p.1, p.2))

/-- Model of the Go call strings.SplitN(s, sep, 2) for a one-byte separator. -/
def splitN2 (sep : Nat) (s : Bytes) : List Bytes :=
  match splitOnFirst sep s with
  | none => [s]
  | some (a, b) => [a, b]

/-- Model of the Go call strings.SplitN(s, sep, 3) for a one-byte separator. -/
def splitN3 (sep : Nat) (s : Bytes) : List Bytes :=
  match splitOnFirst sep s with
  | none => [s]
  | some (a, r) =>
    match splitOnFirst sep r with
    | none => [a, r]
    | some (b, c) => [a, b, c]

/-- Model of the Go call strings.SplitN(s, sep, 4) for a one-byte separator. -/
def splitN4 (sep : Nat) (s : Bytes) : List Bytes :=
  match splitOnFirst sep s with
  | none => [s]
  | some (a, r) =>
    match splitOnFirst sep r with
    | none => [a, r]
    | some (b, r2) =>
      match splitOnFirst sep r2 with
      | none => [a, b, r2]
      | some (c, d) => [a, b, c, d]

/-- Model of the Go call strings.Split(s, sep) for a one-byte separator. -/
def splitAll (sep : Nat) : Bytes → List Bytes
  | [] => [[]]
  | c :: rest =>
    if c = sep then [] :: splitAll sep rest
    else
      match splitAll sep rest with
      | [] => [[c]]
      | p :: ps => (c :: p) :: ps

theorem splitOnFirst_eq_none {sep : Nat} {s : Bytes} :
    splitOnFirst sep s = none ↔ sep ∉ s := by
  induction s with
  | nil => simp [splitOnFirst]
  | cons c rest ih =>
    simp only [splitOnFirst, List.mem_cons]
    by_cases h : c = sep
    · simp [h]
    · rw [if_neg h]
      constructor
      · intro hn hmem
        have hn' : splitOnFirst sep rest = none := by
          cases hsp : splitOnFirst sep rest
          · rfl
          · rw [hsp] at hn; simp at hn
        rcases hmem with h1 | h2
        · exact h h1.symm
        · exact (ih.mp hn') h2
      · intro hn
        rw [ih.mpr (fun hm => hn (Or.inr hm))]
        rfl

theorem splitOnFirst_append {sep : Nat} {a : Bytes} (b : Bytes) (h : sep ∉ a) :
    splitOnFirst sep (a ++ sep :: b) = some (a, b) := by
  induction a with
  | nil => simp [splitOnFirst]
  | cons c rest ih =>
    have hc : c ≠ sep := fun he => h (by simp [he])
    have hrest : sep ∉ rest := fun hm => h (List.mem_cons_of_mem _ hm)
    simp [splitOnFirst, hc, ih hrest]

theorem splitOnFirst_eq_some {sep : Nat} {s a b : Bytes}
    (h : splitOnFirst sep s = some (a, b)) : s = a ++ sep :: b ∧ sep ∉ a := by
  induction s generalizing a b with
  | nil => simp [splitOnFirst] at h
  | cons c rest ih =>
    simp only [splitOnFirst] at h
    by_cases hc : c = sep
    · rw [if_pos hc] at h
      have ha : a = [] := by injection h with h2; exact (congrArg Prod.fst h2).symm
      have hb : b = rest := by injection h with h2; exact (congrArg Prod.snd h2).symm
      subst ha; subst hb; subst hc
      exact ⟨rfl, by simp⟩
    · rw [if_neg hc] at h
      cases hsp : splitOnFirst sep rest with
      | none => rw [hsp] at h; simp at h
      | some p =>
        rw [hsp] at h
        obtain ⟨a', b'⟩ := p
        have ha : a = c :: a' := by injection h with h2; exact (congrArg Prod.fst h2).symm
        have hb : b = b' := by injection h with h2; exact (congrArg Prod.snd h2).symm
        subst ha; subst hb
        obtain ⟨hs, hnot⟩ := ih hsp
        refine ⟨by simp [hs], ?_⟩
        intro hm
        rcases List.mem_cons.mp hm with h1 | h2
        · exact hc h1.symm
        · exact hnot h2

theorem splitAll_ne_nil {sep : Nat} (s : Bytes) : splitAll sep s ≠ [] := by
  cases s with
  | nil => simp [splitAll]
  | cons c rest =>
    simp only [splitAll]
    by_cases h : c = sep
    · simp [h]
    · simp only [if_neg h]
      cases splitAll sep rest <;> simp

theorem splitAll_no_sep {sep : Nat} {s : Bytes} (h : sep ∉ s) :
    splitAll sep s = [s] := by
  induction s with
  | nil => simp [splitAll]
  | cons c rest ih =>
    have hc : c ≠ sep := fun he => h (by simp [he])
    have hrest : sep ∉ rest := fun hm => h (List.mem_cons_of_mem _ hm)
    simp [splitAll, hc, ih hrest]

theorem splitAll_append {sep : Nat} {a : Bytes} (r : Bytes) (h : sep ∉ a) :
    splitAll sep (a ++ sep :: r) = a :: splitAll sep r := by
  induction a with
  | nil => simp [splitAll]
  | cons c rest ih =>
    have hc : c ≠ sep := fun he => h (by simp [he])
    have hrest : sep ∉ rest := fun hm => h (List.mem_cons_of_mem _ hm)
    show splitAll sep (c :: (rest ++ sep :: r)) = (c :: rest) :: splitAll sep r
    rw [splitAll, if_neg hc, ih hrest]

/-!
Base64, modelling the Go package encoding/base64: the shared sextet grouping
and the two alphabets used by the repository, RawURLEncoding (URL-safe, no
padding, used by package token) and StdEncoding (standard, padded, used by
package pwd).
-/

/-- Groups a byte sequence into base64 sextet values (big-endian within each
3-byte group), including the shortened final group. -/
def b64EncGroups : Bytes → List Nat
  | [] => []
  | [b0] => [b0 / 4, b0 % 4 * 16]
  | [b0, b1] => [b0 / 4, b0 % 4 * 16 + b1 / 16, b1 % 16 * 4]
  | b0 :: b1 :: b2 :: rest =>
    b0 / 4 :: (b0 % 4 * 16 + b1 / 16) :: (b1 % 16 * 4 + b2 / 64) :: b2 % 64 ::
      b64EncGroups rest

/-- Rebuilds bytes from base64 sextet values; fails on a single leftover
sextet, as the Go decoder does. -/
def b64DecGroups : List Nat → Option Bytes
  | [] => some []
  | [_] => none
  | [s0, s1] => some [s0 * 4 + s1 / 16]
  | [s0, s1, s2] => some [s0 * 4 + s1 / 16, s1 % 16 * 16 + s2 / 4]
  | s0 :: s1 :: s2 :: s3 :: rest =>
    (b64DecGroups rest).map
      (fun bs =>
        (s0 * 4 + s1 / 16) :: (s1 % 16 * 16 + s2 / 4) :: (s2 % 4 * 64 + s3) :: bs)

/-- The character (byte) for a sextet in the URL-safe base64 alphabet. -/
def b64urlChar (s : Nat) : Nat :=
  if s < 26 then 65 + s
  else if s < 52 then 97 + (s - 26)
  else if s < 62 then 48 + (s - 52)
  else if s = 62 then 45
  else 95

/-- The sextet for a character in the URL-safe base64 alphabet, none when the
character is not in the alphabet. -/
def b64urlIndex (c : Nat) : Option Nat :=
  if 65 ≤ c ∧ c ≤ 90 then some (c - 65)
  else if 97 ≤ c ∧ c ≤ 122 then some (26 + (c - 97))
  else if 48 ≤ c ∧ c ≤ 57 then some (52 + (c - 48))
  else if c = 45 then some 62
  else if c = 95 then some 63
  else none

/-- The character (byte) for a sextet in the standard base64 alphabet. -/
def b64stdChar (s : Nat) : Nat :=
  if s < 26 then 65 + s
  else if s < 52 then 97 + (s - 26)
  else if s < 62 then 48 + (s - 52)
  else if s = 62 then 43
  else 47

/-- The sextet for a character in the standard base64 alphabet. -/
def b64stdIndex (c : Nat) : Option Nat :=
  if 65 ≤ c ∧ c ≤ 90 then some (c - 65)
  else if 97 ≤ c ∧ c ≤ 122 then some (26 + (c - 97))
  else if 48 ≤ c ∧ c ≤ 57 then some (52 + (c - 48))
  else if c = 43 then some 62
  else if c = 47 then some 63
  else none

/-- Reads symbols one by one through a character table, failing on the first
character outside the alphabet, as the Go decoder loop does. -/
def decodeSymbols (f : Nat → Option Nat) : Bytes → Option (List Nat)
  | [] => some []
  | c :: rest =>
    match f c with
    | none => none
    | some s => (decodeSymbols f rest).map (fun l => s :: l)

/-- Model of the Go call base64.RawURLEncoding.EncodeToString. -/
def b64urlEncode (bs : Bytes) : Bytes := (b64EncGroups bs).map b64urlChar

/-- Model of the Go call base64.RawURLEncoding.DecodeString. -/
def b64urlDecode (s : Bytes) : Option Bytes :=
  (decodeSymbols b64urlIndex s).bind b64DecGroups

/-- Model of the Go call base64.StdEncoding.EncodeToString: the raw encoding
followed by padding with the byte 61 (the equals sign) to a multiple of 4. -/
def b64stdEncode (bs : Bytes) : Bytes :=
  (b64EncGroups bs).map b64stdChar ++ List.replicate ((3 - bs.length % 3) % 3) 61

/-- Model of the Go call base64.StdEncoding.DecodeString: the input length
must be a multiple of 4, at most two trailing padding bytes are removed, and
the remainder is decoded with the standard alphabet. -/
def b64stdDecode (s : Bytes) : Option Bytes :=
  if s.length % 4 ≠ 0 then none
  else
    let pad := (s.reverse.takeWhile (fun c => c = 61)).length
    if 2 < pad then none
    else (decodeSymbols b64stdIndex (s.take (s.length - pad))).bind b64DecGroups

theorem b64EncGroups_lt (bs : Bytes) (h : ∀ b ∈ bs, b < 256) :
    ∀ s ∈ b64EncGroups bs, s < 64 := by
  induction bs using b64EncGroups.induct with
  | case1 => simp [b64EncGroups]
  | case2 b0 =>
    have hb0 : b0 < 256 := h b0 (by simp)
    simp only [b64EncGroups, List.mem_cons, List.not_mem_nil, or_false]
    rintro s (rfl | rfl) <;> omega
  | case3 b0 b1 =>
    have hb0 : b0 < 256 := h b0 (by simp)
    have hb1 : b1 < 256 := h b1 (by simp)
    simp only [b64EncGroups, List.mem_cons, List.not_mem_nil, or_false]
    rintro s (rfl | rfl | rfl) <;> omega
  | case4 b0 b1 b2 rest ih =>
    have hb0 : b0 < 256 := h b0 (by simp)
    have hb1 : b1 < 256 := h b1 (by simp)
    have hb2 : b2 < 256 := h b2 (by simp)
    have hrest : ∀ b ∈ rest, b < 256 := fun b hb => h b (by simp [hb])
    simp only [b64EncGroups, List.mem_cons]
    rintro s (rfl | rfl | rfl | rfl | hs)
    · omega
    · omega
    · omega
    · omega
    · exact ih hrest s hs

theorem b64DecGroups_b64EncGroups (bs : Bytes) (h : ∀ b ∈ bs, b < 256) :
    b64DecGroups (b64EncGroups bs) = some bs := by
  induction bs using b64EncGroups.induct with
  | case1 => simp [b64EncGroups, b64DecGroups]
  | case2 b0 =>
    have hb0 : b0 < 256 := h b0 (by simp)
    simp only [b64EncGroups, b64DecGroups, Option.some_inj, List.cons.injEq, and_true]
    omega
  | case3 b0 b1 =>
    have hb0 : b0 < 256 := h b0 (by simp)
    have hb1 : b1 < 256 := h b1 (by simp)
    simp only [b64EncGroups, b64DecGroups, Option.some_inj, List.cons.injEq, and_true]
    omega
  | case4 b0 b1 b2 rest ih =>
    have hb0 : b0 < 256 := h b0 (by simp)
    have hb1 : b1 < 256 := h b1 (by simp)
    have hb2 : b2 < 256 := h b2 (by simp)
    have hrest : ∀ b ∈ rest, b < 256 := fun b hb => h b (by simp [hb])
    simp only [b64EncGroups, b64DecGroups, ih hrest, Option.map_some', Option.some_inj,
      List.cons.injEq, and_true, true_and]
    omega

theorem b64urlIndex_b64urlChar : ∀ s : Fin 64, b64urlIndex (b64urlChar s.val) = some s.val := by
  decide

theorem b64stdIndex_b64stdChar : ∀ s : Fin 64, b64stdIndex (b64stdChar s.val) = some s.val := by
  decide

theorem b64urlChar_ne_dot : ∀ s : Fin 64, b64urlChar s.val ≠ dot := by decide

theorem b64stdChar_ne_dot : ∀ s : Fin 64, b64stdChar s.val ≠ dot := by decide

theorem b64stdChar_ne_pad : ∀ s : Fin 64, b64stdChar s.val ≠ 61 := by decide

theorem decodeSymbols_map_of_inverse {f : Nat → Option Nat} {g : Nat → Nat} {l : List Nat}
    (h : ∀ x ∈ l, f (g x) = some x) : decodeSymbols f (l.map g) = some l := by
  induction l with
  | nil => simp [decodeSymbols]
  | cons x xs ih =>
    have hx := h x (by simp)
    have hxs := ih (fun y hy => h y (by simp [hy]))
    simp [decodeSymbols, hx, hxs]

theorem b64urlDecode_b64urlEncode (bs : Bytes) (h : ∀ b ∈ bs, b < 256) :
    b64urlDecode (b64urlEncode bs) = some bs := by
  unfold b64urlDecode b64urlEncode
  rw [decodeSymbols_map_of_inverse (fun x hx => b64urlIndex_b64urlChar ⟨x, b64EncGroups_lt bs h x hx⟩)]
  simp [b64DecGroups_b64EncGroups bs h]

theorem dot_not_mem_b64urlEncode (bs : Bytes) (h : ∀ b ∈ bs, b < 256) :
    dot ∉ b64urlEncode bs := by
  intro hm
  obtain ⟨s, hs, hchar⟩ := List.mem_map.mp hm
  exact b64urlChar_ne_dot ⟨s, b64EncGroups_lt bs h s hs⟩ hchar

theorem b64EncGroups_length (bs : Bytes) :
    (b64EncGroups bs).length = (4 * bs.length + 2) / 3 := by
  induction bs using b64EncGroups.induct with
  | case1 => simp [b64EncGroups]
  | case2 b0 => simp [b64EncGroups]
  | case3 b0 b1 => simp [b64EncGroups]
  | case4 b0 b1 b2 rest ih =>
    simp only [b64EncGroups, List.length_cons, ih, List.length_cons]
    omega

theorem takeWhile_eq_nil_of_false {p : Nat → Bool} {l : List Nat}
    (h : ∀ x ∈ l, p x = false) : l.takeWhile p = [] := by
  cases l with
  | nil => rfl
  | cons x xs => simp [List.takeWhile, h x (by simp)]

theorem takeWhile_replicate_append {p : Nat → Bool} {a : Nat} (hp : p a = true)
    (k : Nat) (ys : List Nat) :
    (List.replicate k a ++ ys).takeWhile p = List.replicate k a ++ ys.takeWhile p := by
  induction k with
  | zero => simp
  | succ n ih => simp [List.replicate_succ, List.takeWhile, hp, ih]

theorem pad_count_append {xs : Bytes} (k : Nat) (h : ∀ x ∈ xs, x ≠ 61) :
    ((xs ++ List.replicate k 61).reverse.takeWhile (fun c => c = 61)).length = k := by
  rw [List.reverse_append, List.reverse_replicate,
    takeWhile_replicate_append (by simp) k xs.reverse,
    takeWhile_eq_nil_of_false (fun x hx => by
      simp only [decide_eq_false_iff_not]
      exact h x (List.mem_reverse.mp hx))]
  simp

theorem dot_not_mem_b64stdEncode (bs : Bytes) (h : ∀ b ∈ bs, b < 256) :
    dot ∉ b64stdEncode bs := by
  intro hm
  rcases List.mem_append.mp hm with hmap | hrep
  · obtain ⟨s, hs, hchar⟩ := List.mem_map.mp hmap
    exact b64stdChar_ne_dot ⟨s, b64EncGroups_lt bs h s hs⟩ hchar
  · have := List.eq_of_mem_replicate hrep
    unfold dot at this
    omega

theorem b64stdDecode_b64stdEncode (bs : Bytes) (h : ∀ b ∈ bs, b < 256) :
    b64stdDecode (b64stdEncode bs) = some bs := by
  have hne : ∀ x ∈ (b64EncGroups bs).map b64stdChar, x ≠ 61 := by
    intro x hx
    obtain ⟨s, hs, hchar⟩ := List.mem_map.mp hx
    exact hchar ▸ b64stdChar_ne_pad ⟨s, b64EncGroups_lt bs h s hs⟩
  have hmaplen : ((b64EncGroups bs).map b64stdChar).length = (4 * bs.length + 2) / 3 := by
    simp [b64EncGroups_length]
  have hlen4 : (b64stdEncode bs).length % 4 = 0 := by
    simp only [b64stdEncode, List.length_append, List.length_replicate, hmaplen]
    have h3 : bs.length % 3 = 0 ∨ bs.length % 3 = 1 ∨ bs.length % 3 = 2 := by omega
    rcases h3 with h3 | h3 | h3 <;> rw [h3] <;> omega
  have hpad : ((b64stdEncode bs).reverse.takeWhile (fun c => c = 61)).length =
      (3 - bs.length % 3) % 3 := by
    exact pad_count_append _ hne
  unfold b64stdDecode
  rw [if_neg (by simp [hlen4]), hpad]
  rw [if_neg (by omega)]
  have htake : (b64stdEncode bs).take ((b64stdEncode bs).length - (3 - bs.length % 3) % 3) =
      (b64EncGroups bs).map b64stdChar := by
    have hlen : (b64stdEncode bs).length =
        ((b64EncGroups bs).map b64stdChar).length + (3 - bs.length % 3) % 3 := by
      simp [b64stdEncode]
    rw [hlen, Nat.add_sub_cancel]
    unfold b64stdEncode
    exact List.take_left _ _
  rw [htake]
  rw [decodeSymbols_map_of_inverse (fun x hx => b64stdIndex_b64stdChar ⟨x, b64EncGroups_lt bs h x hx⟩)]
  simp [b64DecGroups_b64EncGroups bs h]

/-!
Package pkcs7: Pad and Unpad (src/sig/sig.go, third document).  The Go
conversion byte(padLen) is modelled as padLen % 256, and the Go slice
expression data[len(data)-padLen:] panics when padLen exceeds the length.
-/

/-- Sequencing of Go results: a panic or an error short-circuits. -/
def goBind : GoRes α → (α → GoRes β) → GoRes β
  | .panic, _ => .panic
  | .err e, _ => .err e
  | .ok a, f => f a

/-- Model of pkcs7.Pad. -/
def pkcs7Pad (data : Bytes) (blockSize : Nat) : GoRes Bytes :=
  if blockSize < 1 then .err "pkcs7: Invalid block size"
  else
    let padLen0 := blockSize - data.length % blockSize
    let padLen := if padLen0 = 0 then blockSize else padLen0
    .ok (data ++ List.replicate padLen (padLen % 256))

/-- Model of pkcs7.Unpad. -/
def pkcs7Unpad (data : Bytes) (blockSize : Nat) : GoRes Bytes :=
  if blockSize < 1 then .err "pkcs7: Invalid block size"
  else if data.length % blockSize ≠ 0 ∨ data.length = 0 then
    .err "pkcs7: Invalid data length"
  else
    let padLen := data.getLast?.getD 0
    if data.length < padLen then .panic
    else
      let padding := data.drop (data.length - padLen)
      if padding.all (fun b => b = padLen % 256) then
        .ok (data.take (data.length - padLen))
      else .err "pkcs7: Invalid padding"

theorem pkcs7Pad_eq (data : Bytes) (n : Nat) (h1 : 1 ≤ n) :
    pkcs7Pad data n =
      .ok (data ++ List.replicate (n - data.length % n) ((n - data.length % n) % 256)) := by
  have hmod : data.length % n < n := Nat.mod_lt _ (by omega)
  unfold pkcs7Pad
  rw [if_neg (by omega)]
  simp only [GoRes.ok.injEq]
  rw [if_neg (by omega)]

theorem pkcs7Unpad_pkcs7Pad (data : Bytes) (n : Nat) (h1 : 1 ≤ n) (h2 : n ≤ 255) :
    goBind (pkcs7Pad data n) (fun p => pkcs7Unpad p n) = .ok data := by
  have hmod : data.length % n < n := Nat.mod_lt _ (by omega)
  set p : Nat := n - data.length % n with hp
  have hp1 : 1 ≤ p := by omega
  have hp256 : p % 256 = p := Nat.mod_eq_of_lt (by omega)
  rw [pkcs7Pad_eq data n h1, hp256]
  have hlen : (data ++ List.replicate p p).length = data.length + p := by simp
  have hdm := Nat.div_add_mod data.length n
  have hmul : data.length + p = n * (data.length / n + 1) := by
    rw [Nat.mul_add, Nat.mul_one]
    omega
  have hmodz : (data.length + p) % n = 0 := by
    rw [hmul]
    exact Nat.mul_mod_right _ _
  have hlast : (data ++ List.replicate p p).getLast? = some p := by
    rw [List.getLast?_append]
    have : p = p - 1 + 1 := by omega
    rw [this, List.replicate_succ', List.getLast?_concat]
    simp
  show pkcs7Unpad (data ++ List.replicate p p) n = .ok data
  unfold pkcs7Unpad
  rw [if_neg (by omega)]
  rw [if_neg (by rw [hlen, hmodz]; omega)]
  rw [hlast]
  simp only [Option.getD_some]
  rw [if_neg (by rw [hlen]; omega)]
  have hdrop : (data ++ List.replicate p p).drop ((data ++ List.replicate p p).length - p) =
      List.replicate p p := by
    rw [hlen, Nat.add_sub_cancel]
    exact List.drop_left _ _
  rw [hdrop]
  rw [if_pos (by
    rw [List.all_eq_true]
    intro b hb
    have := List.eq_of_mem_replicate hb
    simp [this, hp256])]
  rw [hlen, Nat.add_sub_cancel, List.take_left]

theorem pkcs7Pad_full_block (data : Bytes) (n : Nat) (h1 : 1 ≤ n) (h2 : n ≤ 255)
    (h : data.length % n = 0) :
    pkcs7Pad data n = .ok (data ++ List.replicate n n) := by
  rw [pkcs7Pad_eq data n h1, h]
  have : (n - 0) % 256 = n := by omega
  rw [Nat.sub_zero, Nat.mod_eq_of_lt (by omega)]

/-!
Package compare: the constant-time hash comparison, and package sig: the
HMAC-SHA256 helpers.  The HMAC function itself is an external collaborator
passed as a parameter.
-/

/-- Model of compare.Hashes: length check, then a fold over every byte. -/
def compareHashes (hash1 hash2 : Bytes) : Bool :=
  if hash1.length ≠ hash2.length then false
  else (hash1.zip hash2).foldl (fun equal p => equal && (p.1 == p.2)) true

theorem foldl_and_pairs (l : List (Nat × Nat)) (e : Bool) :
    l.foldl (fun equal p => equal && (p.1 == p.2)) e =
      (e && l.all (fun p => p.1 == p.2)) := by
  induction l generalizing e with
  | nil => simp
  | cons x xs ih => simp [List.foldl_cons, ih, Bool.and_assoc]

theorem zip_all_beq {a b : Bytes} (hlen : a.length = b.length) :
    ((a.zip b).all (fun p => p.1 == p.2) = true) ↔ a = b := by
  induction a generalizing b with
  | nil =>
    cases b with
    | nil => simp
    | cons y ys => simp at hlen
  | cons x xs ih =>
    cases b with
    | nil => simp at hlen
    | cons y ys =>
      have hlen2 : xs.length = ys.length := by simpa using hlen
      simp [List.zip_cons_cons, ih hlen2, beq_iff_eq]

theorem compareHashes_eq_true_iff {a b : Bytes} : compareHashes a b = true ↔ a = b := by
  unfold compareHashes
  by_cases hlen : a.length = b.length
  · rw [if_neg (by omega), foldl_and_pairs, Bool.true_and, zip_all_beq hlen]
  · rw [if_pos (by omega)]
    constructor
    · intro hfalse
      simp at hfalse
    · intro heq
      exact absurd (heq ▸ rfl) hlen

theorem compareHashes_self (a : Bytes) : compareHashes a a = true :=
  compareHashes_eq_true_iff.mpr rfl

/-- Model of sig.ComputeSHA256; the HMAC-SHA256 primitive is the external
parameter hmac (key, message to signature). -/
def sigComputeSHA256 (hmac : Bytes → Bytes → Bytes) (key msg : Bytes) : Bytes :=
  hmac key msg

/-- Model of sig.ValidateSHA256: recompute and compare with compare.Hashes. -/
def sigValidateSHA256 (hmac : Bytes → Bytes → Bytes) (key msg signature : Bytes) : Bool :=
  compareHashes signature (sigComputeSHA256 hmac key msg)

/-!
Package aes (src/unnamed/part_001): AES-CBC encryption and decryption with a
prepended IV.  The AES block permutation of crypto/aes is an external
collaborator, passed as the parameters E (encrypt one block under a key) and
D (decrypt one block); crypto/cipher CBC mode is embedded structurally.
-/

/-- Pointwise xor of two byte strings, as CBC mode computes it. -/
def xorBytes (a b : Bytes) : Bytes := List.zipWith (fun x y => x ^^^ y) a b

/-- Splits a byte string into AES blocks of 16 bytes (the final block may be
shorter when the length is not a multiple of 16). -/
def chunk16 (l : Bytes) : List Bytes :=
  if l = [] then [] else l.take 16 :: chunk16 (l.drop 16)
termination_by l.length
decreasing_by
  rename_i h
  have : l.length ≠ 0 := fun hz => h (List.eq_nil_of_length_eq_zero hz)
  simp only [List.length_drop]
  omega

/-- CBC encryption over a list of blocks: each plaintext block is xored with
the previous ciphertext block (initially the IV) and passed through E. -/
def cbcEnc (E : Bytes → Bytes) (prev : Bytes) : List Bytes → List Bytes
  | [] => []
  | b :: bs =>
    let c := E (xorBytes prev b)
    c :: cbcEnc E c bs

/-- CBC decryption over a list of blocks. -/
def cbcDec (D : Bytes → Bytes) (prev : Bytes) : List Bytes → List Bytes
  | [] => []
  | c :: cs => xorBytes prev (D c) :: cbcDec D c cs

/-- Model of aes.Encrypt: key length check, PKCS7 padding to 16 bytes, CBC
encryption under the random IV, and the IV prepended to the ciphertext.  The
IV delivered by rng.GenerateBytes is a parameter. -/
def aesEncrypt (E : Bytes → Bytes → Bytes) (iv : Bytes) (key plain : Bytes) : GoRes Bytes :=
  if ¬(key.length = 16 ∨ key.length = 24 ∨ key.length = 32) then
    .err "encryption key must be either 16, 24 or 32 bytes long"
  else
    match pkcs7Pad plain 16 with
    | .panic => .panic
    | .err e => .err ("error when padding message with PKCS7: " ++ e)
    | .ok padded => .ok (iv ++ (cbcEnc (E key) iv (chunk16 padded)).flatten)

/-- Model of aes.Decrypt: key length check, then the Go slice expressions
scrambled[:16] and scrambled[16:]; the former panics when the input is
shorter than one block, and crypto/cipher CryptBlocks panics when the
remaining length is not a multiple of the block size. -/
def aesDecrypt (D : Bytes → Bytes → Bytes) (key scrambled : Bytes) : GoRes Bytes :=
  if ¬(key.length = 16 ∨ key.length = 24 ∨ key.length = 32) then
    .err "encryption key must be either 16, 24 or 32 bytes long"
  else if scrambled.length < 16 then .panic
  else
    let iv := scrambled.take 16
    let encryptedBytes := scrambled.drop 16
    if encryptedBytes.length % 16 ≠ 0 then .panic
    else
      match pkcs7Unpad ((cbcDec (D key) iv (chunk16 encryptedBytes)).flatten) 16 with
      | .panic => .panic
      | .err e => .err ("error when un-padding message with PKCS7: " ++ e)
      | .ok plain => .ok plain

theorem xorBytes_cancel {a b : Bytes} (h : a.length = b.length) :
    xorBytes a (xorBytes a b) = b := by
  induction a generalizing b with
  | nil =>
    cases b with
    | nil => rfl
    | cons y ys => simp at h
  | cons x xs ih =>
    cases b with
    | nil => simp at h
    | cons y ys =>
      have h2 : xs.length = ys.length := by simpa using h
      simp only [xorBytes, List.zipWith_cons_cons]
      rw [show List.zipWith (fun x y => x ^^^ y) xs
        (List.zipWith (fun x y => x ^^^ y) xs ys) = xorBytes xs (xorBytes xs ys) from rfl]
      rw [ih h2, ← Nat.xor_assoc, Nat.xor_self, Nat.zero_xor]

theorem xorBytes_length (a b : Bytes) : (xorBytes a b).length = min a.length b.length := by
  simp [xorBytes]

theorem xorBytes_lt (a b : Bytes) (ha : ∀ x ∈ a, x < 256) (hb : ∀ x ∈ b, x < 256) :
    ∀ x ∈ xorBytes a b, x < 256 := by
  induction a generalizing b with
  | nil => intro x hx; simp [xorBytes] at hx
  | cons c cs ih =>
    intro x hx
    cases b with
    | nil => simp [xorBytes] at hx
    | cons d ds =>
      simp only [xorBytes, List.zipWith_cons_cons, List.mem_cons] at hx
      rcases hx with rfl | hx
      · have h1 : c < 256 := ha c (by simp)
        have h2 : d < 256 := hb d (by simp)
        have := Nat.xor_lt_two_pow (n := 8) h1 h2
        simpa using this
      · exact ih ds (fun y hy => ha y (by simp [hy])) (fun y hy => hb y (by simp [hy])) x hx

theorem cbcDec_cbcEnc (E D : Bytes → Bytes) (hED : ∀ b, b.length = 16 → D (E b) = b)
    (hlen : ∀ b, (E b).length = b.length) :
    ∀ (blocks : List Bytes) (prev : Bytes), prev.length = 16 →
      (∀ b ∈ blocks, b.length = 16) →
      cbcDec D prev (cbcEnc E prev blocks) = blocks := by
  intro blocks
  induction blocks with
  | nil => intro prev _ _; rfl
  | cons b bs ih =>
    intro prev hprev hblocks
    have hb : b.length = 16 := hblocks b (by simp)
    have hxlen : (xorBytes prev b).length = 16 := by
      rw [xorBytes_length, hprev, hb]
      simp
    simp only [cbcEnc, cbcDec]
    rw [hED (xorBytes prev b) hxlen]
    rw [xorBytes_cancel (by omega)]
    rw [ih (E (xorBytes prev b)) (by rw [hlen, hxlen]) (fun x hx => hblocks x (by simp [hx]))]

theorem cbcEnc_lengths (E : Bytes → Bytes) (hlen : ∀ b, (E b).length = b.length) :
    ∀ (blocks : List Bytes) (prev : Bytes), prev.length = 16 →
      (∀ b ∈ blocks, b.length = 16) →
      ∀ c ∈ cbcEnc E prev blocks, c.length = 16 := by
  intro blocks
  induction blocks with
  | nil => intro prev _ _ c hc; simp [cbcEnc] at hc
  | cons b bs ih =>
    intro prev hprev hblocks c hc
    have hb : b.length = 16 := hblocks b (by simp)
    have hxlen : (xorBytes prev b).length = 16 := by
      rw [xorBytes_length, hprev, hb]; simp
    have hclen : (E (xorBytes prev b)).length = 16 := by rw [hlen, hxlen]
    simp only [cbcEnc, List.mem_cons] at hc
    rcases hc with rfl | hc
    · exact hclen
    · exact ih (E (xorBytes prev b)) hclen (fun x hx => hblocks x (by simp [hx])) c hc

theorem cbcEnc_bounded (E : Bytes → Bytes)
    (hEb : ∀ b, (∀ x ∈ b, x < 256) → ∀ x ∈ E b, x < 256) :
    ∀ (blocks : List Bytes) (prev : Bytes), (∀ x ∈ prev, x < 256) →
      (∀ b ∈ blocks, ∀ x ∈ b, x < 256) →
      ∀ c ∈ cbcEnc E prev blocks, ∀ x ∈ c, x < 256 := by
  intro blocks
  induction blocks with
  | nil => intro prev _ _ c hc; simp [cbcEnc] at hc
  | cons b bs ih =>
    intro prev hprev hblocks c hc
    have hxb : ∀ x ∈ xorBytes prev b, x < 256 :=
      xorBytes_lt prev b hprev (hblocks b (by simp))
    have hcb : ∀ x ∈ E (xorBytes prev b), x < 256 := hEb _ hxb
    simp only [cbcEnc, List.mem_cons] at hc
    rcases hc with rfl | hc
    · exact hcb
    · exact ih (E (xorBytes prev b)) hcb (fun y hy => hblocks y (by simp [hy])) c hc

theorem chunk16_flatten (l : Bytes) : (chunk16 l).flatten = l := by
  induction l using chunk16.induct with
  | case1 => simp [chunk16]
  | case2 l h ih =>
    rw [chunk16, if_neg h]
    simp [ih]

theorem chunk16_lengths (l : Bytes) :
    l.length % 16 = 0 → ∀ b ∈ chunk16 l, b.length = 16 := by
  induction l using chunk16.induct with
  | case1 => simp [chunk16]
  | case2 l hnil ih =>
    intro h b hb
    have hpos : 0 < l.length := List.length_pos.mpr hnil
    have h16 : 16 ≤ l.length := by omega
    rw [chunk16, if_neg hnil] at hb
    simp only [List.mem_cons] at hb
    rcases hb with rfl | hb
    · simp
      omega
    · exact ih (by simp; omega) b hb

theorem chunk16_flatten_blocks (blocks : List Bytes) (h : ∀ b ∈ blocks, b.length = 16) :
    chunk16 blocks.flatten = blocks := by
  induction blocks with
  | nil => rw [List.flatten_nil, chunk16, if_pos rfl]
  | cons b bs ih =>
    have hb : b.length = 16 := h b (by simp)
    have hbne : b ≠ [] := by
      intro hz
      rw [hz] at hb
      simp at hb
    have hne : (b :: bs).flatten ≠ [] := by
      simp only [List.flatten_cons]
      intro hz
      rcases List.append_eq_nil.mp hz with ⟨h1, _⟩
      exact hbne h1
    rw [chunk16, if_neg hne]
    simp only [List.flatten_cons]
    rw [show (16 : Nat) = b.length from hb.symm, List.take_left, List.drop_left]
    rw [ih (fun x hx => h x (by simp [hx]))]

theorem flatten_length_uniform (blocks : List Bytes) (h : ∀ b ∈ blocks, b.length = 16) :
    blocks.flatten.length = 16 * blocks.length := by
  induction blocks with
  | nil => simp
  | cons b bs ih =>
    simp only [List.flatten_cons, List.length_append, List.length_cons]
    rw [h b (by simp), ih (fun x hx => h x (by simp [hx]))]
    ring

/-!
Package token (src/token/generator.go): the generator and the two validators
(the unexported one with a single uniform error, and the exported one with
cause-specific error messages).
-/

/-- External collaborators of the token functions: the AES block permutation
pair of crypto/aes (per key, one 16-byte block), HMAC-SHA256 of crypto/hmac,
and the RFC-3339 format/parse pair of the time package (instants are seconds,
formatting is the canonical UTC form written by time.Format(RFC3339)). -/
structure Prims where
  blockEnc : Bytes → Bytes → Bytes
  blockDec : Bytes → Bytes → Bytes
  hmac : Bytes → Bytes → Bytes
  fmtTime : Nat → Bytes
  parseTime : Bytes → Option Nat

/-- The fields of token.Generator: the injected clock (the instant it returns)
and the two keys. -/
structure TokenGenerator where
  now : Nat
  encryptionKey : Bytes
  signingKey : Bytes

/-- The fields of the token validators: the injected clock (the instant it
returns) and the two keys. -/
structure TokenValidator where
  now : Nat
  encryptionKey : Bytes
  signingKey : Bytes

/-- Model of Generator.Generate: expiry from now plus ttl, the plaintext
record kind.base64url(data).rfc3339(expiry), AES-CBC encryption (iv is the
random IV drawn inside aes.Encrypt), an HMAC-SHA256 signature of the
ciphertext, and the wire token base64url(sig).base64url(cipher). -/
def tokenGenerate (P : Prims) (g : TokenGenerator) (iv : Bytes) (kind data : Bytes)
    (ttl : Nat) : GoRes Bytes :=
  let expiry := g.now + ttl
  let encodedData := b64urlEncode data
  let plainText := kind ++ dot :: (encodedData ++ dot :: P.fmtTime expiry)
  match aesEncrypt P.blockEnc iv g.encryptionKey plainText with
  | .panic => .panic
  | .err e => .err ("could not generate token: " ++ e)
  | .ok cipher =>
    let signature := sigComputeSHA256 P.hmac g.signingKey cipher
    .ok (b64urlEncode signature ++ dot :: b64urlEncode cipher)

/-- Model of the unexported validator.Validate, the variant in which every
rejection path returns the same error value errToken.  In the source the kind
check also tests err from the earlier Decrypt call, but err is always nil on
that path, so the model checks only the kind. -/
def tokenValidate (P : Prims) (v : TokenValidator) (kind token : Bytes) : GoRes Bytes :=
  let errToken := "token is missing, invalid or has expired"
  if token = [] then .err errToken
  else
    match splitN2 dot token with
    | [p0, p1] =>
      match b64urlDecode p0 with
      | none => .err errToken
      | some signature =>
        match b64urlDecode p1 with
        | none => .err errToken
        | some cipher =>
          if ¬ sigValidateSHA256 P.hmac v.signingKey cipher signature then .err errToken
          else
            match aesDecrypt P.blockDec v.encryptionKey cipher with
            | .panic => .panic
            | .err _ => .err errToken
            | .ok plain =>
              match splitN3 dot plain with
              | [m0, m1, m2] =>
                if kind ≠ m0 then .err errToken
                else
                  match P.parseTime m2 with
                  | none => .err errToken
                  | some expiry =>
                    if expiry < v.now then .err errToken
                    else
                      match b64urlDecode m1 with
                      | none => .err errToken
                      | some data => .ok data
              | _ => .err errToken
    | _ => .err errToken

/-- Model of the exported Validator.Validate, the variant that returns a
cause-specific error message on each rejection path. -/
def tokenValidateExported (P : Prims) (v : TokenValidator) (kind token : Bytes) :
    GoRes Bytes :=
  if token = [] then .err "empty token"
  else
    match splitN2 dot token with
    | [p0, p1] =>
      match b64urlDecode p0 with
      | none => .err "signature must be base64 encoded"
      | some signature =>
        match b64urlDecode p1 with
        | none => .err "data must be base64 encoded"
        | some cipher =>
          if ¬ sigValidateSHA256 P.hmac v.signingKey cipher signature then
            .err "signature does not match data"
          else
            match aesDecrypt P.blockDec v.encryptionKey cipher with
            | .panic => .panic
            | .err _ => .err "failed to decrypt data"
            | .ok plain =>
              match splitN3 dot plain with
              | [m0, m1, m2] =>
                if kind ≠ m0 then .err "token doesn't match expected kind"
                else
                  match P.parseTime m2 with
                  | none => .err "token does not include a valid expiry date"
                  | some expiry =>
                    if expiry < v.now then .err "token expired"
                    else
                      match b64urlDecode m1 with
                      | none => .err "failed to base64 decode plaintext message"
                      | some data => .ok data
              | _ =>
                .err "decrypted message must consist of 3 parts: token kind, data and expiry date"
    | _ => .err "token must consist of two parts: signature and data"

theorem padded_length_mod (L n : Nat) (h1 : 1 ≤ n) : (L + (n - L % n)) % n = 0 := by
  have hdm := Nat.div_add_mod L n
  have hmod : L % n < n := Nat.mod_lt _ (by omega)
  have hmul : L + (n - L % n) = n * (L / n + 1) := by
    rw [Nat.mul_add, Nat.mul_one]
    omega
  rw [hmul]
  exact Nat.mul_mod_right _ _

theorem pkcs7Unpad_padded (data : Bytes) (n : Nat) (h1 : 1 ≤ n) (h2 : n ≤ 255) :
    pkcs7Unpad
      (data ++ List.replicate (n - data.length % n) ((n - data.length % n) % 256)) n =
      .ok data := by
  have h := pkcs7Unpad_pkcs7Pad data n h1 h2
  rw [pkcs7Pad_eq data n h1] at h
  exact h

theorem aesDecrypt_aesEncrypt (E D : Bytes → Bytes → Bytes) (key iv plain : Bytes)
    (hkey : key.length = 16 ∨ key.length = 24 ∨ key.length = 32)
    (hiv : iv.length = 16)
    (hED : ∀ b, b.length = 16 → D key (E key b) = b)
    (hElen : ∀ b, (E key b).length = b.length) :
    goBind (aesEncrypt E iv key plain) (fun c => aesDecrypt D key c) = .ok plain := by
  have henc : aesEncrypt E iv key plain =
      .ok (iv ++ (cbcEnc (E key) iv (chunk16 (plain ++
        List.replicate (16 - plain.length % 16) ((16 - plain.length % 16) % 256)))).flatten) := by
    unfold aesEncrypt
    rw [if_neg (by tauto), pkcs7Pad_eq plain 16 (by omega)]
  rw [henc]
  set p : Nat := 16 - plain.length % 16 with hp
  set padded : Bytes := plain ++ List.replicate p (p % 256) with hpadded
  have hpadlen : padded.length % 16 = 0 := by
    rw [hpadded]
    simp only [List.length_append, List.length_replicate]
    exact padded_length_mod plain.length 16 (by omega)
  have hblocks16 : ∀ b ∈ chunk16 padded, b.length = 16 := chunk16_lengths _ hpadlen
  set cblocks : List Bytes := cbcEnc (E key) iv (chunk16 padded) with hcb
  have hcblocks : ∀ c ∈ cblocks, c.length = 16 :=
    cbcEnc_lengths (E key) hElen (chunk16 padded) iv hiv hblocks16
  have hflatlen : cblocks.flatten.length = 16 * cblocks.length :=
    flatten_length_uniform _ hcblocks
  show aesDecrypt D key (iv ++ cblocks.flatten) = .ok plain
  have htake : (iv ++ cblocks.flatten).take 16 = iv := by
    rw [show (16 : Nat) = iv.length from hiv.symm]
    exact List.take_left _ _
  have hdrop : (iv ++ cblocks.flatten).drop 16 = cblocks.flatten := by
    rw [show (16 : Nat) = iv.length from hiv.symm]
    exact List.drop_left _ _
  have hlenge : ¬ ((iv ++ cblocks.flatten).length < 16) := by
    simp only [List.length_append, hiv]
    omega
  unfold aesDecrypt
  rw [if_neg (by tauto), if_neg hlenge]
  simp only [htake, hdrop]
  rw [if_neg (by rw [hflatlen]; simp [Nat.mul_mod_right])]
  rw [chunk16_flatten_blocks cblocks hcblocks]
  rw [hcb, cbcDec_cbcEnc (E key) (D key) hED hElen (chunk16 padded) iv hiv hblocks16]
  rw [chunk16_flatten padded]
  rw [hpadded, pkcs7Unpad_padded plain 16 (by omega) (by omega)]

/-- The ciphertext that aes.Encrypt produces for a given block cipher, key,
IV and plaintext: the IV followed by the CBC encryption of the PKCS7-padded
plaintext. -/
def cbcCipher (E : Bytes → Bytes → Bytes) (key iv plain : Bytes) : Bytes :=
  iv ++ (cbcEnc (E key) iv (chunk16 (plain ++
    List.replicate (16 - plain.length % 16) ((16 - plain.length % 16) % 256)))).flatten

/-- The plaintext record that Generate builds: kind.base64url(data).expiry. -/
def tokenRecord (P : Prims) (kind data : Bytes) (expiry : Nat) : Bytes :=
  kind ++ dot :: (b64urlEncode data ++ dot :: P.fmtTime expiry)

/-- The wire form of a token: base64url(signature).base64url(ciphertext). -/
def wireToken (P : Prims) (sk cipher : Bytes) : Bytes :=
  b64urlEncode (P.hmac sk cipher) ++ dot :: b64urlEncode cipher

theorem aesEncrypt_ok (E : Bytes → Bytes → Bytes) (iv key plain : Bytes)
    (hkey : key.length = 16 ∨ key.length = 24 ∨ key.length = 32) :
    aesEncrypt E iv key plain = .ok (cbcCipher E key iv plain) := by
  unfold aesEncrypt cbcCipher
  rw [if_neg (by tauto), pkcs7Pad_eq plain 16 (by omega)]

theorem aesDecrypt_cbcCipher (E D : Bytes → Bytes → Bytes) (key iv plain : Bytes)
    (hkey : key.length = 16 ∨ key.length = 24 ∨ key.length = 32)
    (hiv : iv.length = 16)
    (hED : ∀ b, b.length = 16 → D key (E key b) = b)
    (hElen : ∀ b, (E key b).length = b.length) :
    aesDecrypt D key (cbcCipher E key iv plain) = .ok plain := by
  have h := aesDecrypt_aesEncrypt E D key iv plain hkey hiv hED hElen
  rw [aesEncrypt_ok E iv key plain hkey] at h
  exact h

theorem chunk16_sub (l : Bytes) : ∀ b ∈ chunk16 l, ∀ x ∈ b, x ∈ l := by
  induction l using chunk16.induct with
  | case1 => simp [chunk16]
  | case2 l h ih =>
    intro b hb x hx
    rw [chunk16, if_neg h] at hb
    rcases List.mem_cons.mp hb with rfl | hb
    · exact List.take_subset _ _ hx
    · exact List.drop_subset _ _ (ih b hb x hx)

theorem cbcCipher_bounded (E : Bytes → Bytes → Bytes) (key iv plain : Bytes)
    (hivb : ∀ x ∈ iv, x < 256)
    (hEb : ∀ b, (∀ x ∈ b, x < 256) → ∀ x ∈ E key b, x < 256)
    (hplainb : ∀ x ∈ plain, x < 256) :
    ∀ x ∈ cbcCipher E key iv plain, x < 256 := by
  intro x hx
  unfold cbcCipher at hx
  rcases List.mem_append.mp hx with hx | hx
  · exact hivb x hx
  · obtain ⟨blk, hblk, hxblk⟩ := List.mem_flatten.mp hx
    refine cbcEnc_bounded (E key) hEb _ iv hivb ?_ blk hblk x hxblk
    intro b hb y hy
    have hmem := chunk16_sub _ b hb y hy
    rcases List.mem_append.mp hmem with h | h
    · exact hplainb y h
    · have := List.eq_of_mem_replicate h
      omega

theorem b64urlChar_lt (s : Nat) : b64urlChar s < 256 := by
  unfold b64urlChar
  split <;> try omega
  split <;> try omega
  split <;> try omega
  split <;> omega

theorem b64urlEncode_lt (bs : Bytes) : ∀ x ∈ b64urlEncode bs, x < 256 := by
  intro x hx
  obtain ⟨s, _, hchar⟩ := List.mem_map.mp hx
  exact hchar ▸ b64urlChar_lt s

theorem tokenRecord_bounded (P : Prims) (kind data : Bytes) (expiry : Nat)
    (hkindb : ∀ x ∈ kind, x < 256)
    (hfmtb : ∀ x ∈ P.fmtTime expiry, x < 256) :
    ∀ x ∈ tokenRecord P kind data expiry, x < 256 := by
  intro x hx
  unfold tokenRecord at hx
  rcases List.mem_append.mp hx with h | h
  · exact hkindb x h
  · rcases List.mem_cons.mp h with rfl | h
    · unfold dot
      omega
    · rcases List.mem_append.mp h with h | h
      · exact b64urlEncode_lt data x h
      · rcases List.mem_cons.mp h with rfl | h
        · unfold dot
          omega
        · exact hfmtb x h

theorem tokenGenerate_ok (P : Prims) (g : TokenGenerator) (iv kind data : Bytes) (ttl : Nat)
    (hkey : g.encryptionKey.length = 16 ∨ g.encryptionKey.length = 24 ∨
      g.encryptionKey.length = 32) :
    tokenGenerate P g iv kind data ttl =
      .ok (wireToken P g.signingKey
        (cbcCipher P.blockEnc g.encryptionKey iv (tokenRecord P kind data (g.now + ttl)))) := by
  simp only [tokenGenerate]
  rw [aesEncrypt_ok P.blockEnc iv g.encryptionKey _ hkey]
  rfl

theorem tokenValidate_wellformed
    (P : Prims) (v : TokenValidator) (kind data fmt cipher : Bytes) (expiry : Nat)
    (hsigb : ∀ x ∈ P.hmac v.signingKey cipher, x < 256)
    (hcipherb : ∀ x ∈ cipher, x < 256)
    (hdec : aesDecrypt P.blockDec v.encryptionKey cipher =
      .ok (kind ++ dot :: (b64urlEncode data ++ dot :: fmt)))
    (hparse : P.parseTime fmt = some expiry)
    (hkind : dot ∉ kind)
    (hdata : ∀ x ∈ data, x < 256) :
    tokenValidate P v kind (wireToken P v.signingKey cipher) =
      (if expiry < v.now then .err "token is missing, invalid or has expired"
       else .ok data) := by
  have htokne : (wireToken P v.signingKey cipher = []) = False := by
    apply eq_false
    unfold wireToken
    simp
  have hsplit2 : splitN2 dot (wireToken P v.signingKey cipher) =
      [b64urlEncode (P.hmac v.signingKey cipher), b64urlEncode cipher] := by
    unfold wireToken splitN2
    rw [splitOnFirst_append _ (dot_not_mem_b64urlEncode _ hsigb)]
  have hdec1 : b64urlDecode (b64urlEncode (P.hmac v.signingKey cipher)) =
      some (P.hmac v.signingKey cipher) := b64urlDecode_b64urlEncode _ hsigb
  have hdec2 : b64urlDecode (b64urlEncode cipher) = some cipher :=
    b64urlDecode_b64urlEncode _ hcipherb
  have hsig : sigValidateSHA256 P.hmac v.signingKey cipher (P.hmac v.signingKey cipher) =
      true := compareHashes_self _
  have hsplit3 : splitN3 dot (kind ++ dot :: (b64urlEncode data ++ dot :: fmt)) =
      [kind, b64urlEncode data, fmt] := by
    simp only [splitN3, splitOnFirst_append _ hkind,
      splitOnFirst_append _ (dot_not_mem_b64urlEncode data hdata)]
  have hdec3 : b64urlDecode (b64urlEncode data) = some data :=
    b64urlDecode_b64urlEncode _ hdata
  have hkk : (kind ≠ kind) = False := by simp
  simp only [tokenValidate, htokne, if_false, hsplit2, hdec1, hdec2, hsig, not_true,
    hdec, hsplit3, hkk, hparse, hdec3]

theorem tokenValidate_wrong_kind
    (P : Prims) (v : TokenValidator) (kindA kindB data fmt cipher : Bytes) (te : Nat)
    (hsigb : ∀ x ∈ P.hmac v.signingKey cipher, x < 256)
    (hcipherb : ∀ x ∈ cipher, x < 256)
    (hdec : aesDecrypt P.blockDec v.encryptionKey cipher =
      .ok (kindB ++ dot :: (b64urlEncode data ++ dot :: fmt)))
    (hfmt : fmt = P.fmtTime te)
    (hJunk : ∀ u t, P.parseTime (u ++ dot :: P.fmtTime t) = none)
    (hdata : ∀ x ∈ data, x < 256)
    (hAB : kindA ≠ kindB) :
    tokenValidate P v kindA (wireToken P v.signingKey cipher) =
      .err "token is missing, invalid or has expired" := by
  subst hfmt
  have htokne : (wireToken P v.signingKey cipher = []) = False := by
    apply eq_false
    unfold wireToken
    simp
  have hsplit2 : splitN2 dot (wireToken P v.signingKey cipher) =
      [b64urlEncode (P.hmac v.signingKey cipher), b64urlEncode cipher] := by
    unfold wireToken splitN2
    rw [splitOnFirst_append _ (dot_not_mem_b64urlEncode _ hsigb)]
  have hdec1 : b64urlDecode (b64urlEncode (P.hmac v.signingKey cipher)) =
      some (P.hmac v.signingKey cipher) := b64urlDecode_b64urlEncode _ hsigb
  have hdec2 : b64urlDecode (b64urlEncode cipher) = some cipher :=
    b64urlDecode_b64urlEncode _ hcipherb
  have hsig : sigValidateSHA256 P.hmac v.signingKey cipher (P.hmac v.signingKey cipher) =
      true := compareHashes_self _
  have hencdot := dot_not_mem_b64urlEncode data hdata
  cases hsB : splitOnFirst dot kindB with
  | none =>
    have hnotB : dot ∉ kindB := splitOnFirst_eq_none.mp hsB
    have hsplit3 : splitN3 dot (kindB ++ dot :: (b64urlEncode data ++ dot :: P.fmtTime te)) =
        [kindB, b64urlEncode data, P.fmtTime te] := by
      simp only [splitN3, splitOnFirst_append _ hnotB, splitOnFirst_append _ hencdot]
    simp only [tokenValidate, htokne, if_false, hsplit2, hdec1, hdec2, hsig, not_true,
      hdec, hsplit3, hAB, ne_eq, not_false_eq_true, if_true]
  | some p =>
    obtain ⟨b1, brest⟩ := p
    obtain ⟨hsdecomp, hnot1⟩ := splitOnFirst_eq_some hsB
    subst hsdecomp
    have hdecassoc : aesDecrypt P.blockDec v.encryptionKey cipher =
        .ok (b1 ++ dot :: (brest ++ dot :: (b64urlEncode data ++ dot :: P.fmtTime te))) := by
      rw [hdec]
      simp [List.append_assoc]
    cases hsB2 : splitOnFirst dot brest with
    | none =>
      have hnot2 : dot ∉ brest := splitOnFirst_eq_none.mp hsB2
      have hsplit3 : splitN3 dot
          (b1 ++ dot :: (brest ++ dot :: (b64urlEncode data ++ dot :: P.fmtTime te))) =
          [b1, brest, b64urlEncode data ++ dot :: P.fmtTime te] := by
        simp only [splitN3, splitOnFirst_append _ hnot1, splitOnFirst_append _ hnot2]
      have hjunk1 : P.parseTime (b64urlEncode data ++ dot :: P.fmtTime te) = none :=
        hJunk _ te
      simp only [tokenValidate, htokne, if_false, hsplit2, hdec1, hdec2, hsig, not_true,
        hdecassoc, hsplit3, hjunk1, ite_self]
    | some q =>
      obtain ⟨b2, b3⟩ := q
      obtain ⟨hsdecomp2, hnot2⟩ := splitOnFirst_eq_some hsB2
      subst hsdecomp2
      have hdecassoc2 : aesDecrypt P.blockDec v.encryptionKey cipher =
          .ok (b1 ++ dot :: (b2 ++ dot ::
            ((b3 ++ dot :: b64urlEncode data) ++ dot :: P.fmtTime te))) := by
        rw [hdecassoc]
        simp [List.append_assoc]
      have hsplit3 : splitN3 dot
          (b1 ++ dot :: (b2 ++ dot ::
            ((b3 ++ dot :: b64urlEncode data) ++ dot :: P.fmtTime te))) =
          [b1, b2, (b3 ++ dot :: b64urlEncode data) ++ dot :: P.fmtTime te] := by
        simp only [splitN3, splitOnFirst_append _ hnot1, splitOnFirst_append _ hnot2]
      have hjunk2 : P.parseTime ((b3 ++ dot :: b64urlEncode data) ++ dot :: P.fmtTime te) =
          none := hJunk _ te
      simp only [tokenValidate, htokne, if_false, hsplit2, hdec1, hdec2, hsig, not_true,
        hdecassoc2, hsplit3, hjunk2, ite_self]

/-!
Package pwd (src/pwd/hashing.go, exported Hasher and Validator document).
PBKDF2 of golang.org/x/crypto and base62.DecodeToInt of the external module
github.com/dusted-go/encoding are collaborators: PBKDF2 is a parameter,
base62 is modelled with the standard base62 digit values (its result only
feeds the PBKDF2 parameter, so the claims do not depend on its exact value).
-/

/-- The byte of the slash character separating strategy parameters. -/
def slash : Nat := 47

/-- Model of base62.DecodeToInt: digits 0-9, A-Z, a-z valued 0-61, most
significant first. -/
def base62DecodeToInt (s : Bytes) : Nat :=
  s.foldl (fun acc c =>
    if 48 ≤ c ∧ c ≤ 57 then acc * 62 + (c - 48)
    else if 65 ≤ c ∧ c ≤ 90 then acc * 62 + (c - 65 + 10)
    else if 97 ≤ c ∧ c ≤ 122 then acc * 62 + (c - 97 + 36)
    else acc) 0

/-- A password hashing function, from password and salt to the derived key. -/
abbrev HashFn := Bytes → Bytes → Bytes

/-- Model of createPbkdf2Fn: four slash-separated parameters, the hash
algorithm must be hmacsha256, lengths and iterations are base62-decoded, and
the result closes over the external pbkdf2.Key (password, salt, iterations,
key length, with SHA-256 fixed). -/
def createPbkdf2Fn (pbkdf2Key : Bytes → Bytes → Nat → Nat → Bytes) (strategy : Bytes) :
    Except String HashFn :=
  match splitN4 slash strategy with
  | [_, a1, a2, a3] =>
    if a1 = strBytes "hmacsha256" then
      let hashLength := base62DecodeToInt a2
      let iterations := base62DecodeToInt a3
      .ok (fun password salt => pbkdf2Key password salt iterations hashLength)
    else .error "invalid strategy, cannot create PBKDF2 hashing function"
  | _ => .error "invalid strategy, cannot create PBKDF2 hashing function"

/-- Model of createPasswordHashingStrategy: supportedStrategies holds the
single family key pbkdf2, matched by prefix. -/
def createPasswordHashingStrategy (pbkdf2Key : Bytes → Bytes → Nat → Nat → Bytes)
    (strategy : Bytes) : Except String HashFn :=
  if strategy = [] then .error "invalid strategy, cannot create password hashing function"
  else if (strBytes "pbkdf2").isPrefixOf strategy then createPbkdf2Fn pbkdf2Key strategy
  else .error "invalid strategy, cannot create password hashing function"

/-- The current default hashing strategy of the source. -/
def defaultStrategy : Bytes := strBytes "pbkdf2/hmacsha256/12/G8"

/-- The parsed passwordHash record. -/
structure PasswordHash where
  salt : Bytes
  hash : Bytes
  strategy : Bytes
  base64Salt : Bytes
  base64Hash : Bytes
deriving DecidableEq, Repr

/-- Model of parsePasswordHash: three dot-separated parts, the salt and the
hash standard-base64 decoded. -/
def parsePasswordHash (pwdh : Bytes) : Except String PasswordHash :=
  if pwdh = [] then .error "string is not a valid passwordHash"
  else
    match splitAll dot pwdh with
    | [strategy, encSalt, encHash] =>
      match b64stdDecode encSalt with
      | none => .error "string is not a valid passwordHash"
      | some salt =>
        match b64stdDecode encHash with
        | none => .error "string is not a valid passwordHash"
        | some hash => .ok ⟨salt, hash, strategy, encSalt, encHash⟩
    | _ => .error "string is not a valid passwordHash"

/-- Model of passwordHash.String: strategy.base64(salt).base64(hash). -/
def passwordHashString (pwdh : PasswordHash) : Bytes :=
  pwdh.strategy ++ dot :: (pwdh.base64Salt ++ dot :: pwdh.base64Hash)

/-- The fields of pwd.Hasher: the salt generator (rng.GenerateBytes), the
resolved hash function and the configured strategy. -/
structure PwdHasher where
  generateSalt : Nat → Bytes
  computeHash : HashFn
  strategy : Bytes

/-- Model of Hasher.computePasswordHash: a fresh 32-byte salt, the derived
hash, and both encoded with standard base64.  The nil-function guards of the
Go code cannot arise here, where the fields are total functions. -/
def computePasswordHash (h : PwdHasher) (password : Bytes) : PasswordHash :=
  let salt := h.generateSalt 32
  let hash := h.computeHash password salt
  ⟨salt, hash, h.strategy, b64stdEncode salt, b64stdEncode hash⟩

/-- Model of Hasher.ComputeHash. -/
def pwdComputeHash (h : PwdHasher) (password : Bytes) : Bytes :=
  passwordHashString (computePasswordHash h password)

/-- Model of newHasher: constructing a hasher panics when the factory
rejects the strategy. -/
def newHasher (generateSalt : Nat → Bytes) (factory : Bytes → Except String HashFn)
    (strategy : Bytes) : GoRes PwdHasher :=
  match factory strategy with
  | .error _ => .panic
  | .ok f => .ok ⟨generateSalt, f, strategy⟩

/-- The fields of pwd.Validator. -/
structure PwdValidator where
  parseHash : Bytes → Except String PasswordHash
  computeHashFactory : Bytes → Except String HashFn
  defaultStrategy : Bytes

/-- Model of Validator.validatePassword; the optional record mirrors the
nil-pointer check of the Go code.  The strategy embedded in the stored hash
selects the hash function; the default strategy only feeds the upgrade
signal. -/
def validatePassword (v : PwdValidator) (p : Bytes) (pwdh : Option PasswordHash) :
    Bool × Bool :=
  match pwdh with
  | none => (false, false)
  | some pwdh =>
    if p = [] then (false, false)
    else
      match v.computeHashFactory pwdh.strategy with
      | .error _ => (false, false)
      | .ok computeHash =>
        let computedHash := computeHash p pwdh.salt
        let ok := compareHashes pwdh.hash computedHash
        (ok, ok && decide (pwdh.strategy ≠ v.defaultStrategy))

/-- Model of Validator.ValidatePassword. -/
def pwdValidatePassword (v : PwdValidator) (password passwordHash : Bytes) : Bool × Bool :=
  match v.parseHash passwordHash with
  | .error _ => (false, false)
  | .ok pwdh => validatePassword v password (some pwdh)

/-- Model of NewValidator, with the PBKDF2 collaborator as parameter. -/
def pwdNewValidator (pbkdf2Key : Bytes → Bytes → Nat → Nat → Bytes) : PwdValidator :=
  ⟨parsePasswordHash, createPasswordHashingStrategy pbkdf2Key, defaultStrategy⟩

/-- Model of NewHasher, with the PBKDF2 collaborator and the CSPRNG salt
source as parameters. -/
def pwdNewHasher (pbkdf2Key : Bytes → Bytes → Nat → Nat → Bytes)
    (generateSalt : Nat → Bytes) : GoRes PwdHasher :=
  newHasher generateSalt (createPasswordHashingStrategy pbkdf2Key) defaultStrategy

theorem parsePasswordHash_string (pwdh : PasswordHash)
    (hstrat : dot ∉ pwdh.strategy)
    (hsalt : b64stdDecode pwdh.base64Salt = some pwdh.salt)
    (hhash : b64stdDecode pwdh.base64Hash = some pwdh.hash)
    (hsaltdot : dot ∉ pwdh.base64Salt) (hhashdot : dot ∉ pwdh.base64Hash) :
    parsePasswordHash (passwordHashString pwdh) = .ok pwdh := by
  have hne : (passwordHashString pwdh = []) = False := by
    apply eq_false
    unfold passwordHashString
    simp
  have hsplit : splitAll dot (passwordHashString pwdh) =
      [pwdh.strategy, pwdh.base64Salt, pwdh.base64Hash] := by
    unfold passwordHashString
    rw [splitAll_append _ hstrat, splitAll_append _ hsaltdot, splitAll_no_sep hhashdot]
  simp only [parsePasswordHash, hne, if_false, hsplit, hsalt, hhash]

theorem pwdValidate_eval (v : PwdValidator) (p stored : Bytes) (pwdh : PasswordHash)
    (f : HashFn)
    (hparse : v.parseHash stored = .ok pwdh)
    (hfac : v.computeHashFactory pwdh.strategy = .ok f)
    (hp : p ≠ []) :
    pwdValidatePassword v p stored =
      (compareHashes pwdh.hash (f p pwdh.salt),
       compareHashes pwdh.hash (f p pwdh.salt) &&
         decide (pwdh.strategy ≠ v.defaultStrategy)) := by
  have hpf : (p = []) = False := eq_false hp
  simp only [pwdValidatePassword, hparse, validatePassword, hpf, if_false, hfac]

theorem pwdValidate_roundtrip (K : Bytes → Bytes → Nat → Nat → Bytes) (gs : Nat → Bytes)
    (strategy p : Bytes) (f : HashFn)
    (hres : createPasswordHashingStrategy K strategy = .ok f)
    (hstratdot : dot ∉ strategy) (hp : p ≠ [])
    (hsaltb : ∀ x ∈ gs 32, x < 256)
    (hhashb : ∀ x ∈ f p (gs 32), x < 256) :
    pwdValidatePassword ⟨parsePasswordHash, createPasswordHashingStrategy K, strategy⟩ p
      (pwdComputeHash ⟨gs, f, strategy⟩ p) = (true, false) := by
  have hrec : computePasswordHash ⟨gs, f, strategy⟩ p =
      ⟨gs 32, f p (gs 32), strategy, b64stdEncode (gs 32), b64stdEncode (f p (gs 32))⟩ := rfl
  have hparse : parsePasswordHash (pwdComputeHash ⟨gs, f, strategy⟩ p) =
      .ok ⟨gs 32, f p (gs 32), strategy, b64stdEncode (gs 32),
        b64stdEncode (f p (gs 32))⟩ := by
    unfold pwdComputeHash
    rw [hrec]
    exact parsePasswordHash_string _ hstratdot
      (b64stdDecode_b64stdEncode _ hsaltb) (b64stdDecode_b64stdEncode _ hhashb)
      (dot_not_mem_b64stdEncode _ hsaltb) (dot_not_mem_b64stdEncode _ hhashb)
  have heval := pwdValidate_eval
    ⟨parsePasswordHash, createPasswordHashingStrategy K, strategy⟩ p
    (pwdComputeHash ⟨gs, f, strategy⟩ p)
    ⟨gs 32, f p (gs 32), strategy, b64stdEncode (gs 32), b64stdEncode (f p (gs 32))⟩
    f hparse hres hp
  rw [heval]
  simp [compareHashes_self]

theorem validatePassword_upgrade_implies_ok (v : PwdValidator) (p : Bytes)
    (opwdh : Option PasswordHash) :
    (validatePassword v p opwdh).2 = true → (validatePassword v p opwdh).1 = true := by
  cases opwdh with
  | none => simp [validatePassword]
  | some pwdh =>
    by_cases hp : p = []
    · simp [validatePassword, hp]
    · cases hf : v.computeHashFactory pwdh.strategy with
      | error e => simp [validatePassword, hp, hf]
      | ok f =>
        simp only [validatePassword, hp, if_false, hf, Bool.and_eq_true]
        intro h
        exact h.1

theorem pwdValidate_upgrade_implies_ok (v : PwdValidator) (p s : Bytes) :
    (pwdValidatePassword v p s).2 = true → (pwdValidatePassword v p s).1 = true := by
  cases hv : v.parseHash s with
  | error e => simp [pwdValidatePassword, hv]
  | ok pwdh =>
    simp only [pwdValidatePassword, hv]
    exact validatePassword_upgrade_implies_ok v p (some pwdh)

/-!
A concrete executable codec used when theorems are instantiated at specific
inputs: instants rendered as decimal digit strings.  It satisfies every
contract the theorems assume of the RFC-3339 codec of the time package: the
parse/format round-trip, the absence of the dot byte in formatted output, and
the failure of parsing on any string that appends a dot-separated prefix to a
formatted instant.
-/

/-- Formats an instant as big-endian decimal digit bytes. -/
def decFmtTime (t : Nat) : Bytes :=
  if t = 0 then [48] else ((Nat.digits 10 t).reverse).map (fun d => d + 48)

/-- Parses a nonempty all-digit byte string back into an instant. -/
def decParseTime (s : Bytes) : Option Nat :=
  if s ≠ [] ∧ s.all (fun c => decide (48 ≤ c ∧ c ≤ 57)) then
    some (Nat.ofDigits 10 ((s.reverse).map (fun c => c - 48)))
  else none

theorem decParseTime_decFmtTime (t : Nat) : decParseTime (decFmtTime t) = some t := by
  by_cases h : t = 0
  · subst h
    decide
  · unfold decFmtTime decParseTime
    rw [if_neg h]
    have hne : Nat.digits 10 t ≠ [] := Nat.digits_ne_nil_iff_ne_zero.mpr h
    rw [if_pos]
    · congr 1
      rw [← List.map_reverse, List.reverse_reverse, List.map_map]
      rw [show ((fun c => c - 48) ∘ fun d => d + 48) = id from by
        funext d
        simp]
      rw [List.map_id]
      exact Nat.ofDigits_digits 10 t
    · constructor
      · simp [hne]
      · rw [List.all_eq_true]
        intro c hc
        obtain ⟨d, hd, he⟩ := List.mem_map.mp hc
        have hlt : d < 10 := Nat.digits_lt_base (by omega) (List.mem_reverse.mp hd)
        subst he
        simp
        omega

theorem dot_not_mem_decFmtTime (t : Nat) : dot ∉ decFmtTime t := by
  unfold decFmtTime
  split
  · simp [dot]
  · intro hm
    obtain ⟨d, _, he⟩ := List.mem_map.mp hm
    unfold dot at he
    omega

theorem decFmtTime_bounded (t : Nat) : ∀ x ∈ decFmtTime t, x < 256 := by
  unfold decFmtTime
  split
  · simp
  · intro x hx
    obtain ⟨d, hd, he⟩ := List.mem_map.mp hx
    have hlt : d < 10 :=
      Nat.digits_lt_base (by omega) (List.mem_reverse.mp hd)
    omega

theorem decParseTime_junk (u : Bytes) (t : Nat) :
    decParseTime (u ++ dot :: decFmtTime t) = none := by
  unfold decParseTime
  rw [if_neg]
  rintro ⟨_, hall⟩
  rw [List.all_eq_true] at hall
  have hdot := hall dot (by simp)
  unfold dot at hdot
  simp at hdot

theorem tokenValidate_dotted_kind
    (P : Prims) (v : TokenValidator) (b1 brest tail cipher : Bytes)
    (hsigb : ∀ x ∈ P.hmac v.signingKey cipher, x < 256)
    (hcipherb : ∀ x ∈ cipher, x < 256)
    (hb1 : dot ∉ b1)
    (hdec : aesDecrypt P.blockDec v.encryptionKey cipher =
      .ok ((b1 ++ dot :: brest) ++ dot :: tail)) :
    tokenValidate P v (b1 ++ dot :: brest) (wireToken P v.signingKey cipher) =
      .err "token is missing, invalid or has expired" := by
  have htokne : (wireToken P v.signingKey cipher = []) = False := by
    apply eq_false
    unfold wireToken
    simp
  have hsplit2 : splitN2 dot (wireToken P v.signingKey cipher) =
      [b64urlEncode (P.hmac v.signingKey cipher), b64urlEncode cipher] := by
    unfold wireToken splitN2
    rw [splitOnFirst_append _ (dot_not_mem_b64urlEncode _ hsigb)]
  have hdec1 : b64urlDecode (b64urlEncode (P.hmac v.signingKey cipher)) =
      some (P.hmac v.signingKey cipher) := b64urlDecode_b64urlEncode _ hsigb
  have hdec2 : b64urlDecode (b64urlEncode cipher) = some cipher :=
    b64urlDecode_b64urlEncode _ hcipherb
  have hsig : sigValidateSHA256 P.hmac v.signingKey cipher (P.hmac v.signingKey cipher) =
      true := compareHashes_self _
  have hdecassoc : aesDecrypt P.blockDec v.encryptionKey cipher =
      .ok (b1 ++ dot :: (brest ++ dot :: tail)) := by
    rw [hdec]
    simp [List.append_assoc]
  have hne : b1 ++ dot :: brest ≠ b1 := by
    intro he
    have := congrArg List.length he
    simp at this
  cases h2 : splitOnFirst dot (brest ++ dot :: tail) with
  | none =>
    have hsplit3 : splitN3 dot (b1 ++ dot :: (brest ++ dot :: tail)) =
        [b1, brest ++ dot :: tail] := by
      simp only [splitN3, splitOnFirst_append _ hb1, h2]
    simp only [tokenValidate, htokne, if_false, hsplit2, hdec1, hdec2, hsig, not_true,
      hdecassoc, hsplit3]
  | some q =>
    obtain ⟨b2, b3⟩ := q
    have hsplit3 : splitN3 dot (b1 ++ dot :: (brest ++ dot :: tail)) = [b1, b2, b3] := by
      simp only [splitN3, splitOnFirst_append _ hb1, h2]
    simp only [tokenValidate, htokne, if_false, hsplit2, hdec1, hdec2, hsig, not_true,
      hdecassoc, hsplit3, hne, ne_eq, not_false_eq_true, if_true]

theorem tokenRoundTrip_core
    (P : Prims) (ek sk iv kind data : Bytes) (now0 now1 ttl : Nat)
    (hkey : ek.length = 16 ∨ ek.length = 24 ∨ ek.length = 32)
    (hiv : iv.length = 16) (hivb : ∀ x ∈ iv, x < 256)
    (hED : ∀ b, b.length = 16 → P.blockDec ek (P.blockEnc ek b) = b)
    (hElen : ∀ b, (P.blockEnc ek b).length = b.length)
    (hEb : ∀ b, (∀ x ∈ b, x < 256) → ∀ x ∈ P.blockEnc ek b, x < 256)
    (hHb : ∀ k m, ∀ x ∈ P.hmac k m, x < 256)
    (hTrt : ∀ t, P.parseTime (P.fmtTime t) = some t)
    (hTb : ∀ t, ∀ x ∈ P.fmtTime t, x < 256)
    (hkind : dot ∉ kind) (hkindb : ∀ x ∈ kind, x < 256)
    (hdata : ∀ x ∈ data, x < 256) :
    goBind (tokenGenerate P ⟨now0, ek, sk⟩ iv kind data ttl)
      (fun tok => tokenValidate P ⟨now1, ek, sk⟩ kind tok) =
      if now0 + ttl < now1 then .err "token is missing, invalid or has expired"
      else .ok data := by
  rw [tokenGenerate_ok P ⟨now0, ek, sk⟩ iv kind data ttl hkey]
  show tokenValidate P ⟨now1, ek, sk⟩ kind
    (wireToken P sk (cbcCipher P.blockEnc ek iv (tokenRecord P kind data (now0 + ttl)))) = _
  have hrecb : ∀ x ∈ tokenRecord P kind data (now0 + ttl), x < 256 :=
    tokenRecord_bounded P kind data (now0 + ttl) hkindb (hTb (now0 + ttl))
  have hciphb : ∀ x ∈ cbcCipher P.blockEnc ek iv (tokenRecord P kind data (now0 + ttl)),
      x < 256 := cbcCipher_bounded P.blockEnc ek iv _ hivb hEb hrecb
  have hdec : aesDecrypt P.blockDec ek
      (cbcCipher P.blockEnc ek iv (tokenRecord P kind data (now0 + ttl))) =
      .ok (kind ++ dot :: (b64urlEncode data ++ dot :: P.fmtTime (now0 + ttl))) :=
    aesDecrypt_cbcCipher P.blockEnc P.blockDec ek iv _ hkey hiv hED hElen
  exact tokenValidate_wellformed P ⟨now1, ek, sk⟩ kind data (P.fmtTime (now0 + ttl))
    (cbcCipher P.blockEnc ek iv (tokenRecord P kind data (now0 + ttl))) (now0 + ttl)
    (hHb sk _) hciphb hdec (hTrt (now0 + ttl)) hkind hdata

theorem tokenKindBinding_core
    (P : Prims) (ek sk iv kindA kindB data : Bytes) (now0 now1 ttl : Nat)
    (hkey : ek.length = 16 ∨ ek.length = 24 ∨ ek.length = 32)
    (hiv : iv.length = 16) (hivb : ∀ x ∈ iv, x < 256)
    (hED : ∀ b, b.length = 16 → P.blockDec ek (P.blockEnc ek b) = b)
    (hElen : ∀ b, (P.blockEnc ek b).length = b.length)
    (hEb : ∀ b, (∀ x ∈ b, x < 256) → ∀ x ∈ P.blockEnc ek b, x < 256)
    (hHb : ∀ k m, ∀ x ∈ P.hmac k m, x < 256)
    (hTb : ∀ t, ∀ x ∈ P.fmtTime t, x < 256)
    (hJunk : ∀ u t, P.parseTime (u ++ dot :: P.fmtTime t) = none)
    (hkindBb : ∀ x ∈ kindB, x < 256)
    (hdata : ∀ x ∈ data, x < 256)
    (hAB : kindA ≠ kindB) :
    goBind (tokenGenerate P ⟨now0, ek, sk⟩ iv kindB data ttl)
      (fun tok => tokenValidate P ⟨now1, ek, sk⟩ kindA tok) =
      .err "token is missing, invalid or has expired" := by
  rw [tokenGenerate_ok P ⟨now0, ek, sk⟩ iv kindB data ttl hkey]
  show tokenValidate P ⟨now1, ek, sk⟩ kindA
    (wireToken P sk (cbcCipher P.blockEnc ek iv (tokenRecord P kindB data (now0 + ttl)))) = _
  have hrecb : ∀ x ∈ tokenRecord P kindB data (now0 + ttl), x < 256 :=
    tokenRecord_bounded P kindB data (now0 + ttl) hkindBb (hTb (now0 + ttl))
  have hciphb : ∀ x ∈ cbcCipher P.blockEnc ek iv (tokenRecord P kindB data (now0 + ttl)),
      x < 256 := cbcCipher_bounded P.blockEnc ek iv _ hivb hEb hrecb
  have hdec : aesDecrypt P.blockDec ek
      (cbcCipher P.blockEnc ek iv (tokenRecord P kindB data (now0 + ttl))) =
      .ok (kindB ++ dot :: (b64urlEncode data ++ dot :: P.fmtTime (now0 + ttl))) :=
    aesDecrypt_cbcCipher P.blockEnc P.blockDec ek iv _ hkey hiv hED hElen
  exact tokenValidate_wrong_kind P ⟨now1, ek, sk⟩ kindA kindB data
    (P.fmtTime (now0 + ttl))
    (cbcCipher P.blockEnc ek iv (tokenRecord P kindB data (now0 + ttl))) (now0 + ttl)
    (hHb sk _) hciphb hdec rfl hJunk hdata hAB

/-!
The claims.
-/

/-- C7 (corrected): at every block size between 1 and 255, unpadding after
padding returns exactly the original data, and data whose length is an exact
multiple of the block size receives a full block of padding.  (As stated, for
every block size at least 1, the claim fails at block size 256: the
counterexample below.) -/
theorem C7_pkcs7_roundtrip (data : Bytes) (n : Nat) (h1 : 1 ≤ n) (h2 : n ≤ 255) :
    goBind (pkcs7Pad data n) (fun p => pkcs7Unpad p n) = .ok data ∧
    (data.length % n = 0 → pkcs7Pad data n = .ok (data ++ List.replicate n n)) :=
  ⟨pkcs7Unpad_pkcs7Pad data n h1 h2, pkcs7Pad_full_block data n h1 h2⟩

/-- C7 witness: the round-trip and the full extra block at block size 16 on
block-aligned data. -/
theorem C7_witness :
    goBind (pkcs7Pad (List.replicate 16 1) 16) (fun p => pkcs7Unpad p 16) =
      .ok (List.replicate 16 1) ∧
    pkcs7Pad (List.replicate 16 1) 16 =
      .ok (List.replicate 16 1 ++ List.replicate 16 16) :=
  ⟨(C7_pkcs7_roundtrip (List.replicate 16 1) 16 (by decide) (by decide)).1,
   (C7_pkcs7_roundtrip (List.replicate 16 1) 16 (by decide) (by decide)).2 (by decide)⟩

set_option maxRecDepth 4096 in
/-- C7 counterexample: at block size 256 the Go conversion byte(padLen)
truncates 256 to 0, so unpadding after padding the empty data succeeds but
returns the full zero block instead of the empty data. -/
theorem C7_counterexample :
    goBind (pkcs7Pad [] 256) (fun p => pkcs7Unpad p 256) ≠ .ok ([] : Bytes) := by
  decide

/-- C8: for every block size at least 1 and every nonempty input of bytes
whose length is a multiple of the block size, when the final byte declares a
padding length between 1 and the block size and the trailing bytes are not
all equal to that declared value, Unpad returns the invalid-padding error
(no panic and no success). -/
theorem C8_unpad_rejects (data : Bytes) (n padLen : Nat)
    (h1 : 1 ≤ n) (hne : data ≠ []) (hmod : data.length % n = 0)
    (hbytes : ∀ b ∈ data, b < 256)
    (hdecl : data.getLast?.getD 0 = padLen)
    (hp1 : 1 ≤ padLen) (hpn : padLen ≤ n)
    (hbad : ∃ b ∈ data.drop (data.length - padLen), b ≠ padLen) :
    pkcs7Unpad data n = .err "pkcs7: Invalid padding" := by
  have hpos : 0 < data.length := List.length_pos.mpr hne
  have hnlen : n ≤ data.length := Nat.le_of_dvd hpos (Nat.dvd_of_mod_eq_zero hmod)
  have hlast : padLen < 256 := by
    cases hl : data.getLast? with
    | none =>
      rw [hl] at hdecl
      simp at hdecl
      omega
    | some a =>
      have hmem : a ∈ data := List.mem_of_mem_getLast? hl
      rw [hl] at hdecl
      simp at hdecl
      subst hdecl
      exact hbytes a hmem
  have hp256 : padLen % 256 = padLen := Nat.mod_eq_of_lt hlast
  unfold pkcs7Unpad
  rw [if_neg (by omega), if_neg (by omega), hdecl, if_neg (by omega), if_neg]
  intro hall
  rw [List.all_eq_true] at hall
  obtain ⟨b, hb, hbne⟩ := hbad
  have := hall b hb
  rw [hp256] at this
  simp at this
  exact hbne this

/-- C8 witness: block size 4, declared padding length 2, trailing bytes 5
and 2: rejected with the invalid-padding error. -/
theorem C8_witness : pkcs7Unpad [9, 9, 5, 2] 4 = .err "pkcs7: Invalid padding" :=
  C8_unpad_rejects [9, 9, 5, 2] 4 2 (by decide) (by decide) (by decide)
    (by decide) (by decide) (by decide) (by decide) ⟨5, by decide, by decide⟩

/-- A concrete collaborator bundle used to instantiate theorems: identity
block cipher, constant 32-byte HMAC, decimal time codec. -/
def cPrims : Prims :=
  ⟨fun _ b => b, fun _ b => b, fun _ _ => List.replicate 32 0, decFmtTime, decParseTime⟩

theorem cPrims_hmac_bounded : ∀ k m, ∀ x ∈ cPrims.hmac k m, x < 256 := by
  intro k m x hx
  simp only [cPrims] at hx
  rw [List.eq_of_mem_replicate hx]
  omega

/-- C4 counterexample: the exported Validator.Validate returns two different
error values on two rejection paths (empty input and missing two-part
structure), so not every rejection path returns one and the same error. -/
theorem C4_counterexample :
    tokenValidateExported cPrims ⟨0, List.replicate 16 0, [1]⟩ [] [] = .err "empty token" ∧
    tokenValidateExported cPrims ⟨0, List.replicate 16 0, [1]⟩ [] [65] =
      .err "token must consist of two parts: signature and data" ∧
    ("empty token" : String) ≠ "token must consist of two parts: signature and data" := by
  refine ⟨rfl, ?_, by decide⟩
  rfl

/-- C4 (amended): in the unexported validator.Validate every rejection path
returns one and the same error value, the uniform message of errToken; the
exported Validator.Validate instead returns cause-specific messages (see the
counterexample). -/
theorem C4_uniform_error (P : Prims) (v : TokenValidator) (kind token : Bytes) (e : String)
    (h : tokenValidate P v kind token = .err e) :
    e = "token is missing, invalid or has expired" := by
  simp only [tokenValidate] at h
  repeat'
    first
    | exact GoRes.noConfusion h
    | (injection h with h2; exact h2.symm)
    | split at h

/-- C4 witness: the uniform error value on the empty-token rejection path. -/
theorem C4_witness :
    ("" : String) = "" ∧
    "token is missing, invalid or has expired" =
      "token is missing, invalid or has expired" :=
  ⟨rfl, (C4_uniform_error cPrims ⟨0, List.replicate 16 0, [1]⟩ [] [] _ rfl).symm⟩

/-- C10: for every key of valid length, aes.Decrypt panics (the Go slice
expression scrambled[:16] is out of range) on any ciphertext shorter than the
16-byte block, instead of returning an error; consequently token Validate
panics on a wire token whose ciphertext segment decodes to fewer than 16
bytes but carries a valid HMAC signature. -/
theorem C10_short_ciphertext_panic :
    (∀ (D : Bytes → Bytes → Bytes) (key scrambled : Bytes),
      (key.length = 16 ∨ key.length = 24 ∨ key.length = 32) →
      scrambled.length < 16 → aesDecrypt D key scrambled = .panic) ∧
    tokenValidate cPrims ⟨0, List.replicate 16 0, [1]⟩ []
      (b64urlEncode (List.replicate 32 0) ++ [dot]) = .panic := by
  constructor
  · intro D key scrambled hkey hlen
    unfold aesDecrypt
    rw [if_neg (by tauto), if_pos hlen]
  · decide

/-- C10 witness: a valid 16-byte key and a 2-byte ciphertext panic. -/
theorem C10_witness :
    aesDecrypt (fun _ b => b) (List.replicate 16 0) [1, 2] = .panic :=
  C10_short_ciphertext_panic.1 (fun _ b => b) (List.replicate 16 0) [1, 2]
    (by simp) (by simp)

/-- C9: malformed inputs reject without panicking: token Validate returns
the uniform error on an empty token, on a token without the two-part
structure, and on tokens whose signature or ciphertext segment is not
base64; password ValidatePassword returns (false, false) on an empty stored
hash, on a stored hash with the wrong number of dot-separated parts, and on
a stored hash whose salt segment or hash segment is not base64. -/
theorem C9_malformed_resilience :
    (∀ (P : Prims) (v : TokenValidator) (kind : Bytes),
      tokenValidate P v kind [] = .err "token is missing, invalid or has expired") ∧
    (∀ (P : Prims) (v : TokenValidator) (kind token : Bytes),
      token ≠ [] → dot ∉ token →
      tokenValidate P v kind token = .err "token is missing, invalid or has expired") ∧
    (∀ (P : Prims) (v : TokenValidator) (kind s1 s2 : Bytes),
      dot ∉ s1 → b64urlDecode s1 = none →
      tokenValidate P v kind (s1 ++ dot :: s2) =
        .err "token is missing, invalid or has expired") ∧
    (∀ (P : Prims) (v : TokenValidator) (kind s1 s2 sig : Bytes),
      dot ∉ s1 → b64urlDecode s1 = some sig → b64urlDecode s2 = none →
      tokenValidate P v kind (s1 ++ dot :: s2) =
        .err "token is missing, invalid or has expired") ∧
    (∀ (v : PwdValidator) (p : Bytes), v.parseHash = parsePasswordHash →
      pwdValidatePassword v p [] = (false, false)) ∧
    (∀ (v : PwdValidator) (p stored : Bytes), v.parseHash = parsePasswordHash →
      stored ≠ [] → (splitAll dot stored).length ≠ 3 →
      pwdValidatePassword v p stored = (false, false)) ∧
    (∀ (v : PwdValidator) (p strat encSalt encHash : Bytes),
      v.parseHash = parsePasswordHash →
      dot ∉ strat → dot ∉ encSalt → b64stdDecode encSalt = none → dot ∉ encHash →
      pwdValidatePassword v p (strat ++ dot :: (encSalt ++ dot :: encHash)) =
        (false, false)) ∧
    (∀ (v : PwdValidator) (p strat encSalt encHash salt : Bytes),
      v.parseHash = parsePasswordHash →
      dot ∉ strat → dot ∉ encSalt → b64stdDecode encSalt = some salt →
      dot ∉ encHash → b64stdDecode encHash = none →
      pwdValidatePassword v p (strat ++ dot :: (encSalt ++ dot :: encHash)) =
        (false, false)) := by
  refine ⟨fun P v kind => rfl, ?_, ?_, ?_, ?_, ?_, ?_, ?_⟩
  · intro P v kind token hne hdot
    have hsp : splitN2 dot token = [token] := by
      unfold splitN2
      rw [splitOnFirst_eq_none.mpr hdot]
    simp only [tokenValidate, eq_false hne, if_false, hsp]
  · intro P v kind s1 s2 hdot hdec
    have hne : (s1 ++ dot :: s2 = []) = False := eq_false (by simp)
    have hsp : splitN2 dot (s1 ++ dot :: s2) = [s1, s2] := by
      unfold splitN2
      rw [splitOnFirst_append _ hdot]
    simp only [tokenValidate, hne, if_false, hsp, hdec]
  · intro P v kind s1 s2 sig hdot hdec1 hdec2
    have hne : (s1 ++ dot :: s2 = []) = False := eq_false (by simp)
    have hsp : splitN2 dot (s1 ++ dot :: s2) = [s1, s2] := by
      unfold splitN2
      rw [splitOnFirst_append _ hdot]
    simp only [tokenValidate, hne, if_false, hsp, hdec1, hdec2]
  · intro v p hvp
    simp [pwdValidatePassword, hvp, parsePasswordHash]
  · intro v p stored hvp hne hlen
    rcases hsp : splitAll dot stored with - | ⟨a, - | ⟨b, - | ⟨c, - | ⟨d, t⟩⟩⟩⟩
    · simp [pwdValidatePassword, hvp, parsePasswordHash, eq_false hne, hsp]
    · simp [pwdValidatePassword, hvp, parsePasswordHash, eq_false hne, hsp]
    · simp [pwdValidatePassword, hvp, parsePasswordHash, eq_false hne, hsp]
    · rw [hsp] at hlen
      simp at hlen
    · simp [pwdValidatePassword, hvp, parsePasswordHash, eq_false hne, hsp]
  · intro v p strat encSalt encHash hvp hstrat hsalt hdecnone hhash
    have hne : (strat ++ dot :: (encSalt ++ dot :: encHash) = []) = False :=
      eq_false (by simp)
    have hsp : splitAll dot (strat ++ dot :: (encSalt ++ dot :: encHash)) =
        [strat, encSalt, encHash] := by
      rw [splitAll_append _ hstrat, splitAll_append _ hsalt, splitAll_no_sep hhash]
    simp only [pwdValidatePassword, hvp, parsePasswordHash, hne, if_false, hsp, hdecnone]
  · intro v p strat encSalt encHash salt hvp hstrat hsaltdot hdecsalt hhashdot hdechash
    have hne : (strat ++ dot :: (encSalt ++ dot :: encHash) = []) = False :=
      eq_false (by simp)
    have hsp : splitAll dot (strat ++ dot :: (encSalt ++ dot :: encHash)) =
        [strat, encSalt, encHash] := by
      rw [splitAll_append _ hstrat, splitAll_append _ hsaltdot, splitAll_no_sep hhashdot]
    simp only [pwdValidatePassword, hvp, parsePasswordHash, hne, if_false, hsp,
      hdecsalt, hdechash]

/-- C9 witness: the malformed-input rejections at concrete inputs. -/
theorem C9_witness :
    tokenValidate cPrims ⟨0, [], []⟩ [] [65] =
      .err "token is missing, invalid or has expired" ∧
    tokenValidate cPrims ⟨0, [], []⟩ [] ([33] ++ dot :: [65]) =
      .err "token is missing, invalid or has expired" ∧
    tokenValidate cPrims ⟨0, [], []⟩ [] ([65, 65] ++ dot :: [33]) =
      .err "token is missing, invalid or has expired" ∧
    pwdValidatePassword (pwdNewValidator (fun _ _ _ _ => [7])) [97] [] = (false, false) ∧
    pwdValidatePassword (pwdNewValidator (fun _ _ _ _ => [7])) [97] [97] = (false, false) ∧
    pwdValidatePassword (pwdNewValidator (fun _ _ _ _ => [7])) [97]
      ([97] ++ dot :: ([33] ++ dot :: [])) = (false, false) ∧
    pwdValidatePassword (pwdNewValidator (fun _ _ _ _ => [7])) [97]
      ([97] ++ dot :: ([] ++ dot :: [33])) = (false, false) :=
  ⟨C9_malformed_resilience.2.1 cPrims ⟨0, [], []⟩ [] [65] (by simp) (by decide),
   C9_malformed_resilience.2.2.1 cPrims ⟨0, [], []⟩ [] [33] [65] (by decide) (by decide),
   C9_malformed_resilience.2.2.2.1 cPrims ⟨0, [], []⟩ [] [65, 65] [33] [0]
     (by decide) (by decide) (by decide),
   C9_malformed_resilience.2.2.2.2.1 (pwdNewValidator (fun _ _ _ _ => [7])) [97] rfl,
   C9_malformed_resilience.2.2.2.2.2.1 (pwdNewValidator (fun _ _ _ _ => [7])) [97] [97]
     rfl (by simp) (by decide),
   C9_malformed_resilience.2.2.2.2.2.2.1 (pwdNewValidator (fun _ _ _ _ => [7])) [97]
     [97] [33] [] rfl (by decide) (by decide) (by decide) (by decide),
   C9_malformed_resilience.2.2.2.2.2.2.2 (pwdNewValidator (fun _ _ _ _ => [7])) [97]
     [97] [] [33] [] rfl (by decide) (by decide) (by decide) (by decide) (by decide)⟩

/-- C1 (amended): token round-trip for every kind string that does not
contain the separator byte, every payload byte sequence, every positive ttl,
every encryption key of length 16, 24 or 32 and any signing key: validating
the generated token with the same kind at a clock not after the expiry
returns exactly the original payload.  (As stated, over every kind string,
the claim fails for kinds containing a dot: the counterexample below.) -/
theorem C1_token_roundtrip
    (P : Prims) (ek sk iv kind data : Bytes) (now0 now1 ttl : Nat)
    (hkey : ek.length = 16 ∨ ek.length = 24 ∨ ek.length = 32)
    (httl : 1 ≤ ttl)
    (hiv : iv.length = 16) (hivb : ∀ x ∈ iv, x < 256)
    (hED : ∀ b, b.length = 16 → P.blockDec ek (P.blockEnc ek b) = b)
    (hElen : ∀ b, (P.blockEnc ek b).length = b.length)
    (hEb : ∀ b, (∀ x ∈ b, x < 256) → ∀ x ∈ P.blockEnc ek b, x < 256)
    (hHb : ∀ k m, ∀ x ∈ P.hmac k m, x < 256)
    (hTrt : ∀ t, P.parseTime (P.fmtTime t) = some t)
    (hTb : ∀ t, ∀ x ∈ P.fmtTime t, x < 256)
    (hkind : dot ∉ kind) (hkindb : ∀ x ∈ kind, x < 256)
    (hdata : ∀ x ∈ data, x < 256)
    (hintime : ¬ (now0 + ttl < now1)) :
    goBind (tokenGenerate P ⟨now0, ek, sk⟩ iv kind data ttl)
      (fun tok => tokenValidate P ⟨now1, ek, sk⟩ kind tok) = .ok data := by
  rw [tokenRoundTrip_core P ek sk iv kind data now0 now1 ttl hkey hiv hivb hED hElen hEb
    hHb hTrt hTb hkind hkindb hdata, if_neg hintime]

/-- C1 witness: a concrete round-trip with the identity block cipher, a
16-byte key, payload bytes 0 and 255, ttl 5 and validation at time 3. -/
theorem C1_witness :
    goBind (tokenGenerate cPrims ⟨0, List.replicate 16 0, [1]⟩ (List.replicate 16 0)
      [107] [0, 255] 5)
      (fun tok => tokenValidate cPrims ⟨3, List.replicate 16 0, [1]⟩ [107] tok) =
      .ok [0, 255] :=
  C1_token_roundtrip cPrims (List.replicate 16 0) [1] (List.replicate 16 0) [107]
    [0, 255] 0 3 5 (by simp) (by omega) (by simp)
    (fun x hx => by rw [List.eq_of_mem_replicate hx]; omega)
    (fun b _ => rfl) (fun b => rfl) (fun b hb => hb)
    cPrims_hmac_bounded decParseTime_decFmtTime decFmtTime_bounded
    (by decide) (by decide) (by decide) (by omega)

/-- C1 counterexample: a kind containing the separator (x.y) breaks the
round-trip: the validator parses the first record segment x as the kind,
which does not match x.y, so validation rejects instead of returning the
payload. -/
theorem C1_counterexample :
    goBind (tokenGenerate cPrims ⟨0, List.replicate 16 0, [1]⟩ (List.replicate 16 0)
      (strBytes "x.y") [] 1)
      (fun tok => tokenValidate cPrims ⟨0, List.replicate 16 0, [1]⟩ (strBytes "x.y") tok) ≠
      GoRes.ok [] := by
  rw [tokenGenerate_ok cPrims ⟨0, List.replicate 16 0, [1]⟩ (List.replicate 16 0)
    (strBytes "x.y") [] 1 (by simp)]
  show tokenValidate cPrims ⟨0, List.replicate 16 0, [1]⟩ ([120] ++ dot :: [121])
    (wireToken cPrims [1]
      (cbcCipher cPrims.blockEnc (List.replicate 16 0) (List.replicate 16 0)
        (tokenRecord cPrims (strBytes "x.y") [] (0 + 1)))) ≠ GoRes.ok []
  have hrecb : ∀ x ∈ tokenRecord cPrims (strBytes "x.y") [] (0 + 1), x < 256 :=
    tokenRecord_bounded cPrims (strBytes "x.y") [] (0 + 1) (by decide)
      (decFmtTime_bounded (0 + 1))
  have hciphb : ∀ x ∈ cbcCipher cPrims.blockEnc (List.replicate 16 0)
      (List.replicate 16 0) (tokenRecord cPrims (strBytes "x.y") [] (0 + 1)), x < 256 :=
    cbcCipher_bounded cPrims.blockEnc (List.replicate 16 0) (List.replicate 16 0) _
      (fun x hx => by rw [List.eq_of_mem_replicate hx]; omega)
      (fun b hb => hb) hrecb
  have hdec : aesDecrypt cPrims.blockDec (List.replicate 16 0)
      (cbcCipher cPrims.blockEnc (List.replicate 16 0) (List.replicate 16 0)
        (tokenRecord cPrims (strBytes "x.y") [] (0 + 1))) =
      .ok (([120] ++ dot :: [121]) ++ dot ::
        (b64urlEncode [] ++ dot :: cPrims.fmtTime (0 + 1))) :=
    aesDecrypt_cbcCipher cPrims.blockEnc cPrims.blockDec (List.replicate 16 0)
      (List.replicate 16 0) (tokenRecord cPrims (strBytes "x.y") [] (0 + 1))
      (by simp) (by simp) (fun b _ => rfl) (fun b => rfl)
  rw [tokenValidate_dotted_kind cPrims ⟨0, List.replicate 16 0, [1]⟩ [120] [121]
    (b64urlEncode [] ++ dot :: cPrims.fmtTime (0 + 1))
    (cbcCipher cPrims.blockEnc (List.replicate 16 0) (List.replicate 16 0)
      (tokenRecord cPrims (strBytes "x.y") [] (0 + 1)))
    (cPrims_hmac_bounded [1] _) hciphb (by decide) hdec]
  simp

/-- C2: a generated token validated when the clock reads exactly the
recorded expiry instant is accepted with the original payload, and validated
at any instant strictly after the expiry (in particular one second after) is
rejected: the expiry comparison has strict greater-than semantics. -/
theorem C2_expiry_boundary
    (P : Prims) (ek sk iv kind data : Bytes) (now0 ttl : Nat)
    (hkey : ek.length = 16 ∨ ek.length = 24 ∨ ek.length = 32)
    (hiv : iv.length = 16) (hivb : ∀ x ∈ iv, x < 256)
    (hED : ∀ b, b.length = 16 → P.blockDec ek (P.blockEnc ek b) = b)
    (hElen : ∀ b, (P.blockEnc ek b).length = b.length)
    (hEb : ∀ b, (∀ x ∈ b, x < 256) → ∀ x ∈ P.blockEnc ek b, x < 256)
    (hHb : ∀ k m, ∀ x ∈ P.hmac k m, x < 256)
    (hTrt : ∀ t, P.parseTime (P.fmtTime t) = some t)
    (hTb : ∀ t, ∀ x ∈ P.fmtTime t, x < 256)
    (hkind : dot ∉ kind) (hkindb : ∀ x ∈ kind, x < 256)
    (hdata : ∀ x ∈ data, x < 256) :
    goBind (tokenGenerate P ⟨now0, ek, sk⟩ iv kind data ttl)
      (fun tok => tokenValidate P ⟨now0 + ttl, ek, sk⟩ kind tok) = .ok data ∧
    (∀ now1, now0 + ttl < now1 →
      goBind (tokenGenerate P ⟨now0, ek, sk⟩ iv kind data ttl)
        (fun tok => tokenValidate P ⟨now1, ek, sk⟩ kind tok) =
        .err "token is missing, invalid or has expired") := by
  constructor
  · rw [tokenRoundTrip_core P ek sk iv kind data now0 (now0 + ttl) ttl hkey hiv hivb hED
      hElen hEb hHb hTrt hTb hkind hkindb hdata, if_neg (by omega)]
  · intro now1 hafter
    rw [tokenRoundTrip_core P ek sk iv kind data now0 now1 ttl hkey hiv hivb hED
      hElen hEb hHb hTrt hTb hkind hkindb hdata, if_pos hafter]

/-- C2 witness: acceptance at exactly the expiry instant 5 and rejection at
instant 6. -/
theorem C2_witness :
    goBind (tokenGenerate cPrims ⟨0, List.replicate 16 0, [1]⟩ (List.replicate 16 0)
      [107] [1] 5)
      (fun tok => tokenValidate cPrims ⟨0 + 5, List.replicate 16 0, [1]⟩ [107] tok) =
      .ok [1] ∧
    goBind (tokenGenerate cPrims ⟨0, List.replicate 16 0, [1]⟩ (List.replicate 16 0)
      [107] [1] 5)
      (fun tok => tokenValidate cPrims ⟨6, List.replicate 16 0, [1]⟩ [107] tok) =
      .err "token is missing, invalid or has expired" :=
  ⟨(C2_expiry_boundary cPrims (List.replicate 16 0) [1] (List.replicate 16 0) [107] [1] 0 5
      (by simp) (by simp) (fun x hx => by rw [List.eq_of_mem_replicate hx]; omega)
      (fun b _ => rfl) (fun b => rfl) (fun b hb => hb)
      cPrims_hmac_bounded decParseTime_decFmtTime decFmtTime_bounded
      (by decide) (by decide) (by decide)).1,
   (C2_expiry_boundary cPrims (List.replicate 16 0) [1] (List.replicate 16 0) [107] [1] 0 5
      (by simp) (by simp) (fun x hx => by rw [List.eq_of_mem_replicate hx]; omega)
      (fun b _ => rfl) (fun b => rfl) (fun b hb => hb)
      cPrims_hmac_bounded decParseTime_decFmtTime decFmtTime_bounded
      (by decide) (by decide) (by decide)).2 6 (by omega)⟩

/-- C3: kind binding: for every pair of distinct kind strings A and B,
every payload and every ttl, validating with kind A a token generated for
kind B rejects with the uniform error, never returning the payload. -/
theorem C3_kind_binding
    (P : Prims) (ek sk iv kindA kindB data : Bytes) (now0 now1 ttl : Nat)
    (hkey : ek.length = 16 ∨ ek.length = 24 ∨ ek.length = 32)
    (hiv : iv.length = 16) (hivb : ∀ x ∈ iv, x < 256)
    (hED : ∀ b, b.length = 16 → P.blockDec ek (P.blockEnc ek b) = b)
    (hElen : ∀ b, (P.blockEnc ek b).length = b.length)
    (hEb : ∀ b, (∀ x ∈ b, x < 256) → ∀ x ∈ P.blockEnc ek b, x < 256)
    (hHb : ∀ k m, ∀ x ∈ P.hmac k m, x < 256)
    (hTb : ∀ t, ∀ x ∈ P.fmtTime t, x < 256)
    (hJunk : ∀ u t, P.parseTime (u ++ dot :: P.fmtTime t) = none)
    (hkindBb : ∀ x ∈ kindB, x < 256)
    (hdata : ∀ x ∈ data, x < 256)
    (hAB : kindA ≠ kindB) :
    goBind (tokenGenerate P ⟨now0, ek, sk⟩ iv kindB data ttl)
      (fun tok => tokenValidate P ⟨now1, ek, sk⟩ kindA tok) =
      .err "token is missing, invalid or has expired" :=
  tokenKindBinding_core P ek sk iv kindA kindB data now0 now1 ttl hkey hiv hivb hED hElen
    hEb hHb hTb hJunk hkindBb hdata hAB

/-- C3 witness: a token minted for kind b is rejected when validated for
kind a, inside its validity window. -/
theorem C3_witness :
    goBind (tokenGenerate cPrims ⟨0, List.replicate 16 0, [1]⟩ (List.replicate 16 0)
      [98] [1] 5)
      (fun tok => tokenValidate cPrims ⟨0, List.replicate 16 0, [1]⟩ [97] tok) =
      .err "token is missing, invalid or has expired" :=
  C3_kind_binding cPrims (List.replicate 16 0) [1] (List.replicate 16 0) [97] [98] [1]
    0 0 5 (by simp) (by simp)
    (fun x hx => by rw [List.eq_of_mem_replicate hx]; omega)
    (fun b _ => rfl) (fun b => rfl) (fun b hb => hb)
    cPrims_hmac_bounded decFmtTime_bounded decParseTime_junk
    (by decide) (by decide) (by decide)

/-- A concrete PBKDF2 collaborator for instantiating theorems: a constant
one-byte derived key. -/
def cK : Bytes → Bytes → Nat → Nat → Bytes := fun _ _ _ _ => [7]

/-- C5 (amended): for every non-empty password, when the hasher was built
with the same strategy that the validator uses as its default (and the
strategy resolves and contains no dot), ValidatePassword of ComputeHash
returns (true, false).  (As stated, over every password, the claim fails for
the empty password: the counterexample below.) -/
theorem C5_password_roundtrip
    (K : Bytes → Bytes → Nat → Nat → Bytes) (gs : Nat → Bytes) (strategy p : Bytes)
    (h : PwdHasher)
    (hnew : newHasher gs (createPasswordHashingStrategy K) strategy = .ok h)
    (hstratdot : dot ∉ strategy)
    (hp : p ≠ [])
    (hsaltb : ∀ x ∈ gs 32, x < 256)
    (hhashb : ∀ x ∈ h.computeHash p (gs 32), x < 256) :
    pwdValidatePassword ⟨parsePasswordHash, createPasswordHashingStrategy K, strategy⟩ p
      (pwdComputeHash h p) = (true, false) := by
  unfold newHasher at hnew
  cases hf : createPasswordHashingStrategy K strategy with
  | error e =>
    rw [hf] at hnew
    exact GoRes.noConfusion hnew
  | ok f =>
    rw [hf] at hnew
    injection hnew with hnew2
    subst hnew2
    exact pwdValidate_roundtrip K gs strategy p f hf hstratdot hp hsaltb hhashb

/-- The hasher that newHasher builds from the default strategy with the
concrete collaborators. -/
def cHasher : PwdHasher :=
  ⟨fun n => List.replicate n 0,
   fun password salt =>
     cK password salt (base62DecodeToInt (strBytes "G8")) (base62DecodeToInt (strBytes "12")),
   defaultStrategy⟩

/-- C5 witness: a concrete non-empty password round-trips to (true, false)
under the default strategy. -/
theorem C5_witness :
    pwdValidatePassword
      ⟨parsePasswordHash, createPasswordHashingStrategy cK, defaultStrategy⟩ [104, 105]
      (pwdComputeHash cHasher [104, 105]) = (true, false) :=
  C5_password_roundtrip cK (fun n => List.replicate n 0) defaultStrategy [104, 105]
    cHasher rfl (by decide) (by decide)
    (fun x hx => by rw [List.eq_of_mem_replicate hx]; omega)
    (by decide)

set_option maxRecDepth 4096 in
/-- C5 counterexample: for the empty password the validator short-circuits
to (false, false) before recomputing, so ValidatePassword of ComputeHash is
not (true, false) although the hasher strategy equals the validator default. -/
theorem C5_counterexample :
    pwdValidatePassword (pwdNewValidator cK) [] (pwdComputeHash cHasher []) =
      (false, false) ∧
    ((false, false) : Bool × Bool) ≠ (true, false) := by
  constructor
  · decide
  · decide

/-- C6 (amended): for every non-empty password the validator recomputes with
the strategy embedded in the stored hash: when that strategy resolves, a
matching recomputed hash under a non-default strategy yields (true, true)
and a non-matching recomputed hash yields (false, false); and over all
inputs needsUpgrade is true only when the password matches.  (As stated,
over every password, the claim fails for the empty password: the
counterexample below.) -/
theorem C6_upgrade_signal
    (v : PwdValidator) (p stored : Bytes) (pwdh : PasswordHash) (f : HashFn)
    (hparse : v.parseHash stored = .ok pwdh)
    (hfac : v.computeHashFactory pwdh.strategy = .ok f)
    (hp : p ≠ []) :
    ((f p pwdh.salt = pwdh.hash ∧ pwdh.strategy ≠ v.defaultStrategy →
        pwdValidatePassword v p stored = (true, true)) ∧
     (f p pwdh.salt ≠ pwdh.hash →
        pwdValidatePassword v p stored = (false, false))) ∧
    (∀ (v2 : PwdValidator) (p2 s2 : Bytes),
      (pwdValidatePassword v2 p2 s2).2 = true → (pwdValidatePassword v2 p2 s2).1 = true) := by
  have heval := pwdValidate_eval v p stored pwdh f hparse hfac hp
  refine ⟨⟨?_, ?_⟩, pwdValidate_upgrade_implies_ok⟩
  · rintro ⟨hmatch, hne⟩
    rw [heval, compareHashes_eq_true_iff.mpr hmatch.symm]
    simp [hne]
  · intro hmismatch
    have hcmp : compareHashes pwdh.hash (f p pwdh.salt) = false := by
      rw [← Bool.not_eq_true, compareHashes_eq_true_iff]
      intro he
      exact hmismatch he.symm
    rw [heval, hcmp]
    simp

/-- A stored hash under the outdated strategy pbkdf2/hmacsha256/A/9 whose
embedded hash equals the constant PBKDF2 output. -/
def storedA9 : Bytes :=
  strBytes "pbkdf2/hmacsha256/A/9" ++ dot ::
    (b64stdEncode (List.replicate 32 0) ++ dot :: b64stdEncode [7])

/-- The record that parsePasswordHash extracts from storedA9. -/
def pwdhA9 : PasswordHash :=
  ⟨List.replicate 32 0, [7], strBytes "pbkdf2/hmacsha256/A/9",
   b64stdEncode (List.replicate 32 0), b64stdEncode [7]⟩

set_option maxRecDepth 4096 in
/-- C6 witness: a matching non-empty password under the outdated strategy
yields (true, true). -/
theorem C6_witness :
    pwdValidatePassword (pwdNewValidator cK) [104] storedA9 = (true, true) :=
  ((C6_upgrade_signal (pwdNewValidator cK) [104] storedA9 pwdhA9
      (fun password salt =>
        cK password salt (base62DecodeToInt (strBytes "9")) (base62DecodeToInt (strBytes "A")))
      rfl rfl (by decide)).1.1) ⟨rfl, by decide⟩

set_option maxRecDepth 4096 in
/-- C6 counterexample: for the empty password the code returns
(false, false) although the stored hash is under a resolvable non-default
strategy and the recomputed hash would match, where the claim demands
(true, true). -/
theorem C6_counterexample :
    pwdValidatePassword (pwdNewValidator cK) [] storedA9 = (false, false) ∧
    createPasswordHashingStrategy cK (strBytes "pbkdf2/hmacsha256/A/9") =
      .ok (fun password salt =>
        cK password salt (base62DecodeToInt (strBytes "9"))
          (base62DecodeToInt (strBytes "A"))) ∧
    cK [] (List.replicate 32 0) (base62DecodeToInt (strBytes "9"))
      (base62DecodeToInt (strBytes "A")) = [7] ∧
    strBytes "pbkdf2/hmacsha256/A/9" ≠ defaultStrategy ∧
    ((false, false) : Bool × Bool) ≠ (true, true) := by
  refine ⟨by decide, rfl, rfl, by decide, by decide⟩
